import Mathlib

/-!
# Validator core: log-cursor reader and bisection challenges

A shallow embedding of

* `packages/arb-util/core/logreader.go` (`LogReader.getLogs`),
* `packages/arb-validator/ethbridge/executionChallenge.go`,
* `packages/arb-validator/ethbridge/pendingTopChallenge.go`.

Go values are embedded as follows.  A slice is an `Option (List _)` where the
nil slice and the empty non-nil slice have to be told apart, and a `List _`
where they do not.  A Go result pair `(v, err)` is a Lean pair whose second
component is an `Option Error`.  Calls on the collaborators of a function
(cursor, consumer, contract bindings, chain client) are explicit state passing
over a state type chosen by the collaborator; every call a function makes is
recorded in a trace.  Loops that Go runs forever take a fuel argument, and an
exhausted fuel is reported as such, never as a return of the function.
-/

/-! ## Part 1: definitions -/

namespace Core

/-- A `value.Value`; the reader never looks inside one. -/
abbrev Value := Nat

/-- A Go `[]value.Value`: `none` is the nil slice, `some l` a non-nil slice. -/
abbrev Slice := Option (List Value)

/-- Go `len` of a slice; the nil slice has length zero. -/
def len : Slice → Nat
  | none => 0
  | some l => l.length

/-- A Go `error` value that is not nil, identified by its message. -/
abbrev Error := String

/-- The cursor and the consumer held by a `LogReader`, as state passing over the
state `σ` of everything behind the two interfaces.  The arguments
`&lr.cursorIndex` and `&lr.maxCount` are pointers into the reader that the
reader itself never writes, so they are part of `σ`. -/
structure LogReader (σ : Type) where
  LogsCursorRequest : σ → Option Error × σ
  LogsCursorGetLogs : σ → (Slice × Option Error) × σ
  LogsCursorGetDeletedLogs : σ → (Slice × Option Error) × σ
  LogsCursorConfirmReceived : σ → (Bool × Option Error) × σ
  AddLogs : Slice → σ → Option Error × σ
  DeleteLogs : Slice → σ → Option Error × σ

/-- One call made by `getLogs`, with its arguments and what came back. -/
inductive Call where
  | LogsCursorRequest (err : Option Error)
  | LogsCursorGetLogs (logs : Slice) (err : Option Error)
  | LogsCursorGetDeletedLogs (logs : Slice) (err : Option Error)
  | LogsCursorConfirmReceived (status : Bool) (err : Option Error)
  | AddLogs (logs : Slice) (err : Option Error)
  | DeleteLogs (logs : Slice) (err : Option Error)
  | Sleep
  deriving DecidableEq, Repr

/-- How a block of statements of `getLogs` ends: control goes on (a loop was
left by `break`, or a statement completed) with the live variables `a`;
`getLogs` returns `err`; or the fuel of the model is used up while the Go code
is still running. -/
inductive Ctl (α : Type) where
  | next (a : α)
  | ret (err : Error)
  | fuel
  deriving DecidableEq, Repr

/-- The calls made by a block, the state it leaves, and how it ends. -/
abbrev Run (σ α : Type) := List Call × σ × Ctl α

/-- Sequential composition: `k` runs only when the first block goes on. -/
def Run.andThen {σ α β : Type} (r : Run σ α) (k : α → σ → Run σ β) : Run σ β :=
  match r with
  | (t, w, .next a) => (t ++ (k a w).1, (k a w).2.1, (k a w).2.2)
  | (t, w, .ret err) => (t, w, .ret err)
  | (t, w, .fuel) => (t, w, .fuel)

/-- Line 20: `err := lr.cursor.LogsCursorRequest(...)`, returning on error. -/
def request {σ : Type} (lr : LogReader σ) (w : σ) : Run σ Unit :=
  match lr.LogsCursorRequest w with
  | (some err, w1) => ([.LogsCursorRequest (some err)], w1, .ret err)
  | (none, w1) => ([.LogsCursorRequest none], w1, .next ())

/-- Lines 27-51, the drain loop.  `deletedLogs` is the variable declared on
line 26.  The `:=` on line 40 declares a new `deletedLogs` (here `inner`) in the
scope of the loop body, so the variable of line 26 is passed on unchanged.  The
loop is left by `break` with the values of `logs` and of the outer
`deletedLogs`. -/
def drainLoop {σ : Type} (lr : LogReader σ) : Nat → Slice → σ → Run σ (Slice × Slice)
  | 0, _, w => ([], w, .fuel)
  | n + 1, deletedLogs, w =>
    match lr.LogsCursorGetLogs w with
    | ((logs, some err), w1) => ([.LogsCursorGetLogs logs (some err)], w1, .ret err)
    | ((logs, none), w1) =>
      if logs ≠ none ∨ deletedLogs ≠ none then
        ([.LogsCursorGetLogs logs none], w1, .next (logs, deletedLogs))
      else
        match lr.LogsCursorGetDeletedLogs w1 with
        | ((inner, some err), w2) =>
          ([.LogsCursorGetLogs logs none, .LogsCursorGetDeletedLogs inner (some err)], w2,
            .ret err)
        | ((inner, none), w2) =>
          if inner ≠ none then
            Run.andThen
              ([.LogsCursorGetLogs logs none, .LogsCursorGetDeletedLogs inner none], w2,
                .next ())
              (fun _ w3 => drainLoop lr n deletedLogs w3)
          else
            Run.andThen
              ([.LogsCursorGetLogs logs none, .LogsCursorGetDeletedLogs inner none, .Sleep],
                w2, .next ())
              (fun _ w3 => drainLoop lr n deletedLogs w3)

/-- Lines 53-58: `AddLogs(logs)` when `len(logs) > 0`. -/
def deliverAdded {σ : Type} (lr : LogReader σ) (logs : Slice) (w : σ) : Run σ Unit :=
  if len logs > 0 then
    match lr.AddLogs logs w with
    | (some err, w1) => ([.AddLogs logs (some err)], w1, .ret err)
    | (none, w1) => ([.AddLogs logs none], w1, .next ())
  else ([], w, .next ())

/-- Lines 60-65 and 88-93: `DeleteLogs(deletedLogs)` when `len(deletedLogs) > 0`. -/
def deliverDeleted {σ : Type} (lr : LogReader σ) (deletedLogs : Slice) (w : σ) : Run σ Unit :=
  if len deletedLogs > 0 then
    match lr.DeleteLogs deletedLogs w with
    | (some err, w1) => ([.DeleteLogs deletedLogs (some err)], w1, .ret err)
    | (none, w1) => ([.DeleteLogs deletedLogs none], w1, .next ())
  else ([], w, .next ())

/-- Lines 67-94, the confirm loop. -/
def confirmLoop {σ : Type} (lr : LogReader σ) : Nat → σ → Run σ Unit
  | 0, w => ([], w, .fuel)
  | n + 1, w =>
    match lr.LogsCursorConfirmReceived w with
    | ((status, some err), w1) => ([.LogsCursorConfirmReceived status (some err)], w1, .ret err)
    | ((status, none), w1) =>
      if status then
        ([.LogsCursorConfirmReceived status none], w1, .next ())
      else
        match lr.LogsCursorGetDeletedLogs w1 with
        | ((newDeletedLogs, some err), w2) =>
          ([.LogsCursorConfirmReceived status none,
            .LogsCursorGetDeletedLogs newDeletedLogs (some err)], w2, .ret err)
        | ((newDeletedLogs, none), w2) =>
          if newDeletedLogs = none then
            ([.LogsCursorConfirmReceived status none,
              .LogsCursorGetDeletedLogs newDeletedLogs none], w2,
              .ret "missing expected deleted logs")
          else
            Run.andThen
              (Run.andThen
                ([.LogsCursorConfirmReceived status none,
                  .LogsCursorGetDeletedLogs newDeletedLogs none], w2, .next ())
                (fun _ w3 => deliverDeleted lr newDeletedLogs w3))
              (fun _ w4 => confirmLoop lr n w4)

/-- One pass through the body of the outer loop, lines 20-94.  `logs` and
`deletedLogs` are declared nil on lines 25-26. -/
def round {σ : Type} (lr : LogReader σ) (n : Nat) (w : σ) : Run σ Unit :=
  Run.andThen (request lr w) fun _ w1 =>
  Run.andThen (drainLoop lr n none w1) fun vars w2 =>
  Run.andThen (deliverAdded lr vars.1 w2) fun _ w3 =>
  Run.andThen (deliverDeleted lr vars.2 w3) fun _ w4 =>
  confirmLoop lr n w4

/-- The method `LogReader.getLogs`, lines 18-96.  The outer loop has no exit
other than a return with an error, so the result is `.ret err` or `.fuel`; the
fuel bounds the passes of every loop. -/
def getLogs {σ : Type} (lr : LogReader σ) : Nat → σ → Run σ Empty
  | 0, w => ([], w, .fuel)
  | n + 1, w => Run.andThen (round lr n w) fun _ w1 => getLogs lr n w1

/-- The slices handed to the consumer, in order: `Sum.inl` for `AddLogs`,
`Sum.inr` for `DeleteLogs`. -/
def consumerCalls : List Call → List (Slice ⊕ Slice)
  | [] => []
  | .AddLogs logs _ :: t => Sum.inl logs :: consumerCalls t
  | .DeleteLogs logs _ :: t => Sum.inr logs :: consumerCalls t
  | _ :: t => consumerCalls t

/-- A trace whose consumer calls are all `DeleteLogs`. -/
def OnlyDeletes (t : List Call) : Prop :=
  ∃ dels : List Slice, consumerCalls t = dels.map Sum.inr

/-- One scripted answer of the cursor or the consumer. -/
inductive Answer where
  | err (e : Option Error)
  | logs (l : Slice) (e : Option Error)
  | status (b : Bool) (e : Option Error)
  deriving DecidableEq, Repr

/-- A cursor and a consumer that answer from a script, one answer per call in
call order.  A call that finds no answer of its kind fails with an error. -/
def scripted : LogReader (List Answer) where
  LogsCursorRequest
    | .err e :: s => (e, s)
    | s => (some "script", s)
  LogsCursorGetLogs
    | .logs l e :: s => ((l, e), s)
    | s => ((none, some "script"), s)
  LogsCursorGetDeletedLogs
    | .logs l e :: s => ((l, e), s)
    | s => ((none, some "script"), s)
  LogsCursorConfirmReceived
    | .status b e :: s => ((b, e), s)
    | s => ((false, some "script"), s)
  AddLogs
    | _, .err e :: s => (e, s)
    | _, s => (some "script", s)
  DeleteLogs
    | _, .err e :: s => (e, s)
    | _, s => (some "script", s)

/-- The rest of an execution of `getLogs` that stands at the head of the confirm
loop (line 67): the confirm loop with fuel `n`, then the next passes of the
outer loop with fuel `m`. -/
def resumeAtConfirm {σ : Type} (lr : LogReader σ) (n m : Nat) (w : σ) : Run σ Empty :=
  Run.andThen (confirmLoop lr n w) fun _ w1 => getLogs lr m w1

/-- The rest of an execution of `getLogs` that stands at the head of the drain
loop (line 27) with the outer variable `deletedLogs` as given. -/
def resumeAtDrain {σ : Type} (lr : LogReader σ) (n m : Nat) (deletedLogs : Slice) (w : σ) :
    Run σ Empty :=
  Run.andThen (drainLoop lr n deletedLogs w) fun vars w2 =>
  Run.andThen (deliverAdded lr vars.1 w2) fun _ w3 =>
  Run.andThen (deliverDeleted lr vars.2 w3) fun _ w4 =>
  resumeAtConfirm lr m m w4

/-- Script of `m` polls that find nothing: `GetLogs` nil, `GetDeletedLogs` nil. -/
def idleScript : Nat → List Answer
  | 0 => []
  | m + 1 => .logs none none :: .logs none none :: idleScript m

/-- Calls of `m` polls that find nothing, each followed by the sleep. -/
def idleCalls : Nat → List Call
  | 0 => []
  | m + 1 =>
    .LogsCursorGetLogs none none :: .LogsCursorGetDeletedLogs none none :: .Sleep :: idleCalls m

/-- Script of a confirm loop that is refused once per batch of `ds`: `false`,
the batch from `GetDeletedLogs`, and the consumer accepting the batch. -/
def reorgScript : List (List Value) → List Answer
  | [] => []
  | d :: ds => .status false none :: .logs (some d) none :: .err none :: reorgScript ds

/-- Calls of a confirm loop that is refused once per batch of `ds`. -/
def reorgCalls : List (List Value) → List Call
  | [] => []
  | d :: ds =>
    .LogsCursorConfirmReceived false none :: .LogsCursorGetDeletedLogs (some d) none ::
      .DeleteLogs (some d) none :: reorgCalls ds

/-- Script of one round: request accepted, `m` idle polls, the batch `a` from
`GetLogs`, the consumer accepting it, one refused confirmation per batch of
`ds`, and the confirmation. -/
def roundScript (m : Nat) (a : List Value) (ds : List (List Value)) : List Answer :=
  .err none :: (idleScript m ++ (.logs (some a) none :: .err none ::
    (reorgScript ds ++ [.status true none])))

/-- Calls of the round scripted by `roundScript`. -/
def roundCalls (m : Nat) (a : List Value) (ds : List (List Value)) : List Call :=
  .LogsCursorRequest none :: (idleCalls m ++ (.LogsCursorGetLogs (some a) none ::
    .AddLogs (some a) none :: (reorgCalls ds ++ [.LogsCursorConfirmReceived true none])))

/-- A run in which one drain yields the deleted batch `[7]` and then the added
batch `[1, 2]`. -/
def drainBothScript : List Answer :=
  [.err none, .logs none none, .logs (some [7]) none, .logs (some [1, 2]) none, .err none,
   .status true none]

/-- A run in which the drain yields the deleted batch `[7]` and `GetLogs` finds
nothing on the next poll. -/
def drainDeletedOnlyScript : List Answer :=
  [.err none, .logs none none, .logs (some [7]) none, .logs none none, .logs none none,
   .logs (some [1]) none, .err none, .status true none]

/-- A run in which a refused confirmation is followed by a non-nil batch of
length zero. -/
def refusedEmptyScript : List Answer :=
  [.err none, .logs (some [1, 2]) none, .err none, .status false none, .logs (some []) none,
   .status true none]

end Core

namespace Ethbridge

/-- A 32-byte hash (`common.Hash`, `ethcommon.Hash`, `[32]byte`), read as a number. -/
abbrev Hash := Nat

/-- A Go `error` value that is not nil, identified by its message. -/
abbrev Error := String

/-- Go conversion `uint32(x)` of a non-negative integer. -/
def uint32 (x : Nat) : Nat := x % 2 ^ 32

/-- Go conversion `uint32(z)` of an `int`, which wraps a negative value. -/
def uint32OfInt (z : Int) : Nat := (z % 2 ^ 32).toNat

/-- Go conversion `uint64(x)` of a non-negative integer. -/
def uint64 (x : Nat) : Nat := x % 2 ^ 64

/-- Modelled from the spec: `valprotocol.ExecutionAssertionStub`, declared outside
the files at hand; the fields are those of the data model (after hash, inbox
flag, gas, first and last message and log accumulators) under the names the
code uses. -/
structure ExecutionAssertionStub where
  AfterHash : Hash
  DidInboxInsn : Bool
  NumGas : Nat
  FirstMessageHash : Hash
  LastMessageHash : Hash
  FirstLogHash : Hash
  LastLogHash : Hash
  deriving DecidableEq, Repr

/-- Modelled from the spec: `valprotocol.Precondition`, declared outside the
files at hand: before hash, inbox hash and the two time bounds. -/
structure Precondition where
  BeforeHash : Hash
  BeforeInbox : Hash
  TimeBounds : Nat × Nat
  deriving DecidableEq, Repr

/-- Modelled from the spec: the contract binding
`executionchallenge.ExecutionChallengeBisectedAssertion`, declared outside the
files at hand; the fields are the ones the code reads. -/
structure ExecutionChallengeBisectedAssertion where
  MachineHashes : List Hash
  DidInboxInsns : List Bool
  MessageAccs : List Hash
  LogAccs : List Hash
  Gases : List Nat
  TotalSteps : Nat
  DeadlineTicks : Nat
  deriving DecidableEq, Repr

/-- Modelled from the spec: the contract binding
`pendingtopchallenge.PendingTopChallengeBisected`, declared outside the files at
hand; the fields are the ones the code reads. -/
structure PendingTopChallengeBisected where
  ChainHashes : List Hash
  TotalLength : Nat
  DeadlineTicks : Nat
  deriving DecidableEq, Repr

/-- The fields of a `types.Log` that the handlers read. -/
structure Log where
  Topics : List Hash
  BlockHash : Hash
  TxHash : Hash
  deriving DecidableEq, Repr

/-- What the handlers read of a `types.Header`: `header.Hash()` and
`header.Number`. -/
structure Header where
  Hash : Hash
  Number : Nat
  deriving DecidableEq, Repr

/-- The values of the interface `arbbridge.Event` that the handlers deal with.
`other` stands for an event built by `bisectionChallenge.parseBisectionEvent`,
which is outside the files at hand. -/
inductive Event where
  | ExecutionBisectionEvent (Assertions : List ExecutionAssertionStub) (TotalSteps : Nat)
      (Deadline : Nat)
  | PendingTopBisectionEvent (ChainHashes : List Hash) (TotalLength : Nat) (Deadline : Nat)
  | OneStepProofEvent
  | other (tag : Nat)
  deriving DecidableEq, Repr

/-- An `arbbridge.Notification`; `Event` is an interface value and may be nil. -/
structure Notification where
  BlockHeader : Hash
  BlockHeight : Nat
  VMID : Nat
  Event : Option Event
  TxHash : Hash
  deriving DecidableEq, Repr

/-- How a call ends: it returns its `error` result (nil or not), or it panics. -/
inductive Outcome where
  | returned (err : Option Error)
  | panicked
  deriving DecidableEq, Repr

/-- What a call of `processEvents` does: the block hashes it looks up with
`HeaderByHash`, the notifications it sends on `outChan`, and how it ends. -/
structure Effects where
  headerLookups : List Hash
  sent : List Notification
  outcome : Outcome
  deriving DecidableEq, Repr

/-- A Go `for i := 0; i < n; i++` loop whose body appends one element to a
slice, or panics (`none`): the passes run in index order and a panic ends the
loop. -/
def appendLoop {α : Type} (body : Nat → Option α) : Nat → Option (List α)
  | 0 => some []
  | n + 1 =>
    match appendLoop body n with
    | none => none
    | some acc =>
      match body n with
      | none => none
      | some x => some (acc ++ [x])

/-- The function `translateBisectionEvent`, lines 275-291.  `none` is a run-time
panic: `make` with the capacity `-1` when `MachineHashes` is empty, or an index
out of range.  The index expressions are evaluated in the order of the
composite literal. -/
def translateBisectionEvent (event : ExecutionChallengeBisectedAssertion) :
    Option (List ExecutionAssertionStub) :=
  if event.MachineHashes.length = 0 then none
  else
    let bisectionCount := event.MachineHashes.length - 1
    appendLoop (fun i =>
      match event.MachineHashes[i + 1]?, event.DidInboxInsns[i]?, event.Gases[i]?,
        event.MessageAccs[i]?, event.MessageAccs[i + 1]?, event.LogAccs[i]?,
        event.LogAccs[i + 1]? with
      | some afterHash, some didInboxInsn, some numGas, some firstMessageHash,
        some lastMessageHash, some firstLogHash, some lastLogHash =>
        some {
          AfterHash := afterHash
          DidInboxInsn := didInboxInsn
          NumGas := numGas
          FirstMessageHash := firstMessageHash
          LastMessageHash := lastMessageHash
          FirstLogHash := firstLogHash
          LastLogHash := lastLogHash }
      | _, _, _, _, _, _, _ => none) bisectionCount

/-- The collaborators of an `executionChallenge` that `processEvents` uses, all
declared outside the files at hand: the two event IDs computed by `init`, the
contract bindings `ParseBisectedAssertion` and `ParseOneStepProofCompleted`, the
embedded `bisectionChallenge.parseBisectionEvent` (a pair of an event that may
be nil and an error that may be nil), the client's `HeaderByHash`, and the
contract address. -/
structure executionChallenge where
  address : Nat
  bisectedAssertionID : Hash
  oneStepProofCompletedID : Hash
  ParseBisectedAssertion : Log → Except Error ExecutionChallengeBisectedAssertion
  ParseOneStepProofCompleted : Log → Option Error
  parseBisectionEvent : Log → Option Event × Option Error
  HeaderByHash : Hash → Except Error Header

/-- The function literal of `executionChallenge.processEvents`, lines 139-163:
the pair `(event, err)` it returns, or `none` when it panics (`log.Topics[0]`
on a log without topics, or a panic of `translateBisectionEvent`). -/
def executionChallenge.parseEvent (c : executionChallenge) (log : Log) :
    Option (Option Event × Option Error) :=
  match log.Topics with
  | [] => none
  | topic0 :: _ =>
    if topic0 = c.bisectedAssertionID then
      match c.ParseBisectedAssertion log with
      | .error err => some (none, some err)
      | .ok bisectChal =>
        match translateBisectionEvent bisectChal with
        | none => none
        | some assertions =>
          some (some (.ExecutionBisectionEvent assertions bisectChal.TotalSteps
            bisectChal.DeadlineTicks), none)
    else if topic0 = c.oneStepProofCompletedID then
      match c.ParseOneStepProofCompleted log with
      | some err => some (none, some err)
      | none => some (some .OneStepProofEvent, none)
    else
      match c.parseBisectionEvent log with
      | (event, err) =>
        if event ≠ none ∨ err ≠ none then some (event, err)
        else some (none, some "unknown arbitrum event type")

/-- The method `executionChallenge.processEvents`, lines 138-184. -/
def executionChallenge.processEvents (c : executionChallenge) (log : Log) : Effects :=
  match c.parseEvent log with
  | none => ⟨[], [], .panicked⟩
  | some (_, some err) => ⟨[], [], .returned (some err)⟩
  | some (none, none) => ⟨[], [], .returned none⟩
  | some (some event, none) =>
    match c.HeaderByHash log.BlockHash with
    | .error err => ⟨[log.BlockHash], [], .returned (some err)⟩
    | .ok header =>
      ⟨[log.BlockHash],
        [{ BlockHeader := header.Hash
           BlockHeight := header.Number
           VMID := c.address
           Event := some event
           TxHash := log.TxHash }],
        .returned none⟩

/-- The collaborators of a `pendingTopChallenge` that `processEvents` uses, all
declared outside the files at hand; `hashSliceToHashes` is the conversion at
line 143. -/
structure pendingTopChallenge where
  address : Nat
  pendingTopBisectedID : Hash
  pendingTopOneStepProofCompletedID : Hash
  ParseBisected : Log → Except Error PendingTopChallengeBisected
  ParseOneStepProofCompleted : Log → Option Error
  parseBisectionEvent : Log → Option Event × Option Error
  hashSliceToHashes : List Hash → List Hash
  HeaderByHash : Hash → Except Error Header

/-- The function literal of `pendingTopChallenge.processEvents`, lines 136-160. -/
def pendingTopChallenge.parseEvent (c : pendingTopChallenge) (log : Log) :
    Option (Option Event × Option Error) :=
  match log.Topics with
  | [] => none
  | topic0 :: _ =>
    if topic0 = c.pendingTopBisectedID then
      match c.ParseBisected log with
      | .error err => some (none, some err)
      | .ok eventVal =>
        some (some (.PendingTopBisectionEvent (c.hashSliceToHashes eventVal.ChainHashes)
          eventVal.TotalLength eventVal.DeadlineTicks), none)
    else if topic0 = c.pendingTopOneStepProofCompletedID then
      match c.ParseOneStepProofCompleted log with
      | some err => some (none, some err)
      | none => some (some .OneStepProofEvent, none)
    else
      match c.parseBisectionEvent log with
      | (event, err) =>
        if event ≠ none ∨ err ≠ none then some (event, err)
        else some (none, some "unknown arbitrum event type")

/-- The method `pendingTopChallenge.processEvents`, lines 135-178; it has no
test of `event == nil` before the header lookup. -/
def pendingTopChallenge.processEvents (c : pendingTopChallenge) (log : Log) : Effects :=
  match c.parseEvent log with
  | none => ⟨[], [], .panicked⟩
  | some (_, some err) => ⟨[], [], .returned (some err)⟩
  | some (event, none) =>
    match c.HeaderByHash log.BlockHash with
    | .error err => ⟨[log.BlockHash], [], .returned (some err)⟩
    | .ok header =>
      ⟨[log.BlockHash],
        [{ BlockHeader := header.Hash
           BlockHeight := header.Number
           VMID := c.address
           Event := event
           TxHash := log.TxHash }],
        .returned none⟩

/-- The functions of package `structures` and the `Hash` methods of
`valprotocol` that `ChooseSegment` calls, all declared outside the files at
hand and taken as parameters.  `CalculateBisectionStepCount` returns a `uint32`,
which is the field `stepCount_lt`. -/
structure Structures where
  CalculateBisectionStepCount : Nat → Nat → Nat → Nat
  stepCount_lt : ∀ i n t, CalculateBisectionStepCount i n t < 2 ^ 32
  ExecutionDataHash : Nat → Hash → Hash → Hash
  PendingTopChallengeDataHash : Hash → Hash → Nat → Hash
  PreconditionHash : Precondition → Hash
  AssertionHash : ExecutionAssertionStub → Hash

/-- The arguments of a call of `bisectionChallenge.chooseSegment`. -/
structure ChooseSegmentCall where
  assertionToChallenge : Nat
  bisectionHashes : List Hash
  deriving DecidableEq, Repr

/-- The method `executionChallenge.ChooseSegment`, lines 253-273: the call of
`chooseSegment` it ends with, or `none` when an index expression panics.  The
loop `for i := range assertions` makes `len(assertions)` passes. -/
def executionChallenge.ChooseSegment (S : Structures) (assertionToChallenge : Nat)
    (preconditions : List Precondition) (assertions : List ExecutionAssertionStub)
    (totalSteps : Nat) : Option ChooseSegmentCall :=
  match appendLoop (fun i =>
      let stepCount :=
        S.CalculateBisectionStepCount (uint32 i) (uint32 assertions.length) totalSteps
      match preconditions[i]?, assertions[i]? with
      | some precondition, some assertion =>
        some (S.ExecutionDataHash stepCount (S.PreconditionHash precondition)
          (S.AssertionHash assertion))
      | _, _ => none) assertions.length with
  | none => none
  | some bisectionHashes => some ⟨assertionToChallenge, bisectionHashes⟩

/-- The method `pendingTopChallenge.ChooseSegment`, lines 216-240: the call of
`chooseSegment` it ends with, or `none` when an index expression panics.
`bisectionCount` is `uint32(len(chainHashes) - 1)`, the loop counter `i` is a
`uint32`, and the step count is widened by `uint64` and `SetUint64`. -/
def pendingTopChallenge.ChooseSegment (S : Structures) (assertionToChallenge : Nat)
    (chainHashes : List Hash) (chainLength : Nat) : Option ChooseSegmentCall :=
  let bisectionCount := uint32OfInt ((chainHashes.length : Int) - 1)
  match appendLoop (fun i =>
      let stepCount := S.CalculateBisectionStepCount i bisectionCount chainLength
      match chainHashes[i]?, chainHashes[uint32 (i + 1)]? with
      | some lower, some upper =>
        some (S.PendingTopChallengeDataHash lower upper (uint64 stepCount))
      | _, _ => none) bisectionCount with
  | none => none
  | some bisectionHashes => some ⟨assertionToChallenge, bisectionHashes⟩

/-- The case that a pass of the `select` of the event loop takes: the context
is done; a receive from `logChan` (with `ok` false when the channel is closed);
a receive from `logErrChan`; a receive from `headersSub.Err()`. -/
inductive Selected where
  | ctxDone
  | logChan (evmLog : Log) (ok : Bool)
  | logErrChan (err : Error)
  | headersSubErr (err : Error)
  deriving DecidableEq, Repr

/-- How far the goroutine of the event loop got: it is still in the loop
(waiting in `select`), it has returned, or it has panicked. -/
inductive TaskState where
  | running
  | exited
  | panicked
  deriving DecidableEq, Repr

/-- What the event loop did: the logs it handed to `processEvents`, the header
lookups and notifications of those calls, the errors it sent on `errChan`, and
the state of the goroutine. -/
structure LoopEffects where
  processed : List Log
  headerLookups : List Hash
  sent : List Notification
  errChan : List Error
  state : TaskState
  deriving DecidableEq, Repr

/-- Puts the effects of one `processEvents` call in front of the effects of the
rest of the loop. -/
def LoopEffects.after (evmLog : Log) (e : Effects) (rest : LoopEffects) : LoopEffects :=
  { processed := evmLog :: rest.processed
    headerLookups := e.headerLookups ++ rest.headerLookups
    sent := e.sent ++ rest.sent
    errChan := rest.errChan
    state := rest.state }

/-- The goroutine started by `StartConnection` (lines 110-134 of
executionChallenge.go, 107-131 of pendingTopChallenge.go), run on the cases that
the successive `select` statements take.  In the case `<-ctx.Done()` the
statement `break` ends the `select` statement, and the `for` loop makes its
next pass.  When the list of cases is used up the goroutine waits in
`select`. -/
def eventLoop (processEvents : Log → Effects) : List Selected → LoopEffects
  | [] => ⟨[], [], [], [], .running⟩
  | .ctxDone :: rest => eventLoop processEvents rest
  | .logChan _ false :: _ => ⟨[], [], [], ["logChan terminated early"], .exited⟩
  | .logChan evmLog true :: rest =>
    match (processEvents evmLog).outcome with
    | .panicked =>
      LoopEffects.after evmLog (processEvents evmLog) ⟨[], [], [], [], .panicked⟩
    | .returned (some err) =>
      LoopEffects.after evmLog (processEvents evmLog) ⟨[], [], [], [err], .exited⟩
    | .returned none =>
      LoopEffects.after evmLog (processEvents evmLog) (eventLoop processEvents rest)
  | .logErrChan err :: _ => ⟨[], [], [], [err], .exited⟩
  | .headersSubErr err :: _ => ⟨[], [], [], [err], .exited⟩

/-- The event loop of `executionChallenge.StartConnection`. -/
def executionChallenge.eventLoop (c : executionChallenge) : List Selected → LoopEffects :=
  Ethbridge.eventLoop c.processEvents

/-- The event loop of `pendingTopChallenge.StartConnection`. -/
def pendingTopChallenge.eventLoop (c : pendingTopChallenge) : List Selected → LoopEffects :=
  Ethbridge.eventLoop c.processEvents

/-- Modelled from the spec: an instance of the functions of package
`structures`, with the step count rule `total / N + (1 if i < total % N else
0)`; the hash functions are stand-ins that keep their arguments apart on small
numbers. -/
def sampleStructures : Structures where
  CalculateBisectionStepCount i n t := (t / n + if i < t % n then 1 else 0) % 2 ^ 32
  stepCount_lt _ _ _ := Nat.mod_lt _ (by norm_num)
  ExecutionDataHash s p a := 1 + s + 1000 * p + 1000000 * a
  PendingTopChallengeDataHash lo hi s := 2 + s + 1000 * lo + 1000000 * hi
  PreconditionHash p := p.BeforeHash + 10 * p.BeforeInbox
  AssertionHash a := a.AfterHash + 10 * a.NumGas

/-- A contract whose event IDs are 1 and 2, whose bindings decode a fixed
bisection with one segment and three message accumulators, whose generic parser
recognises nothing, and whose chain knows every block. -/
def sampleExecutionChallenge : executionChallenge where
  address := 77
  bisectedAssertionID := 1
  oneStepProofCompletedID := 2
  ParseBisectedAssertion _ := .ok
    { MachineHashes := [10, 11]
      DidInboxInsns := [true]
      MessageAccs := [20, 21, 22]
      LogAccs := [30, 31]
      Gases := [5]
      TotalSteps := 100
      DeadlineTicks := 9 }
  ParseOneStepProofCompleted _ := none
  parseBisectionEvent _ := (none, none)
  HeaderByHash h := .ok ⟨h, 12⟩

/-- A pending-top contract whose event IDs are 3 and 4 and whose generic parser
recognises nothing. -/
def samplePendingTopChallenge : pendingTopChallenge where
  address := 78
  pendingTopBisectedID := 3
  pendingTopOneStepProofCompletedID := 4
  ParseBisected _ := .ok ⟨[40, 41, 42], 7, 9⟩
  ParseOneStepProofCompleted _ := none
  parseBisectionEvent _ := (none, none)
  hashSliceToHashes hs := hs
  HeaderByHash h := .ok ⟨h, 12⟩

/-- The arrays that `executionChallenge.BisectAssertion` builds on lines 192-206
and hands to the contract binding on lines 208-218. -/
structure BisectionArrays where
  machineHashes : List Hash
  didInboxInsns : List Bool
  messageAccs : List Hash
  logAccs : List Hash
  gasses : List Nat
  deriving DecidableEq, Repr

/-- One pass of the loop of lines 200-206: one `append` to each of the five
arrays. -/
def BisectionArrays.push (arrays : BisectionArrays) (assertion : ExecutionAssertionStub) :
    BisectionArrays :=
  { machineHashes := arrays.machineHashes ++ [assertion.AfterHash]
    didInboxInsns := arrays.didInboxInsns ++ [assertion.DidInboxInsn]
    messageAccs := arrays.messageAccs ++ [assertion.LastMessageHash]
    logAccs := arrays.logAccs ++ [assertion.LastLogHash]
    gasses := arrays.gasses ++ [assertion.NumGas] }

/-- The method `executionChallenge.BisectAssertion`, lines 186-206: the arrays
it builds, or `none` when `assertions[0]` panics on an empty list.  The
transaction and the wait for its receipt (lines 207-222) are outside the
files at hand. -/
def executionChallenge.BisectAssertion (precondition : Precondition)
    (assertions : List ExecutionAssertionStub) : Option BisectionArrays :=
  match assertions[0]? with
  | none => none
  | some first =>
    some (assertions.foldl BisectionArrays.push
      { machineHashes := [precondition.BeforeHash]
        didInboxInsns := []
        messageAccs := [first.FirstMessageHash]
        logAccs := [first.FirstLogHash]
        gasses := [] })

/-- The BisectedAssertion event that carries the arrays of a bisection. -/
def BisectionArrays.toEvent (arrays : BisectionArrays) (totalSteps deadlineTicks : Nat) :
    ExecutionChallengeBisectedAssertion :=
  { MachineHashes := arrays.machineHashes
    DidInboxInsns := arrays.didInboxInsns
    MessageAccs := arrays.messageAccs
    LogAccs := arrays.logAccs
    Gases := arrays.gasses
    TotalSteps := totalSteps
    DeadlineTicks := deadlineTicks }

/-- The handler `pendingTopChallenge.processEvents` with the test
`if event == nil { return nil }` of `executionChallenge.processEvents` (lines
169-171 there) put before the header lookup; the source does not have this
test, and this definition is the one to compare the source with. -/
def pendingTopChallenge.processEventsWithNilTest (c : pendingTopChallenge) (log : Log) :
    Effects :=
  match c.parseEvent log with
  | none => ⟨[], [], .panicked⟩
  | some (_, some err) => ⟨[], [], .returned (some err)⟩
  | some (none, none) => ⟨[], [], .returned none⟩
  | some (some event, none) =>
    match c.HeaderByHash log.BlockHash with
    | .error err => ⟨[log.BlockHash], [], .returned (some err)⟩
    | .ok header =>
      ⟨[log.BlockHash],
        [{ BlockHeader := header.Hash
           BlockHeight := header.Number
           VMID := c.address
           Event := some event
           TxHash := log.TxHash }],
        .returned none⟩

end Ethbridge

/-! ## Part 2: theorems -/

namespace Core

/-! ### Sequential composition -/

theorem andThen_next {σ α β : Type} (t : List Call) (w : σ) (a : α) (k : α → σ → Run σ β) :
    Run.andThen (t, w, Ctl.next a) k = (t ++ (k a w).1, (k a w).2.1, (k a w).2.2) := rfl

theorem andThen_ret {σ α β : Type} (t : List Call) (w : σ) (err : Error) (k : α → σ → Run σ β) :
    Run.andThen ((t, w, Ctl.ret err) : Run σ α) k = (t, w, Ctl.ret err) := rfl

theorem andThen_fuel {σ α β : Type} (t : List Call) (w : σ) (k : α → σ → Run σ β) :
    Run.andThen ((t, w, Ctl.fuel) : Run σ α) k = (t, w, Ctl.fuel) := rfl

theorem andThen_assoc {σ α β γ : Type} (r : Run σ α) (k1 : α → σ → Run σ β)
    (k2 : β → σ → Run σ γ) :
    Run.andThen (Run.andThen r k1) k2 = Run.andThen r fun a w => Run.andThen (k1 a w) k2 := by
  rcases r with ⟨t, w, c⟩
  cases c with
  | ret err => rfl
  | fuel => rfl
  | next a =>
    rcases h : k1 a w with ⟨t1, w1, c1⟩
    cases c1 <;> simp [Run.andThen, h]

/-- The outer loop body is the request followed by the rest of the execution
from the head of the drain loop. -/
theorem getLogs_succ {σ : Type} (lr : LogReader σ) (n : Nat) (w : σ) :
    getLogs lr (n + 1) w
      = Run.andThen (request lr w) fun _ w1 => resumeAtDrain lr n n none w1 := by
  simp only [getLogs, round, resumeAtDrain, resumeAtConfirm, andThen_assoc]

/-! ### Calls on the consumer -/

theorem consumerCalls_append (s t : List Call) :
    consumerCalls (s ++ t) = consumerCalls s ++ consumerCalls t := by
  induction s with
  | nil => rfl
  | cons c s ih => cases c <;> simp [consumerCalls, ih]

theorem onlyDeletes_append {s t : List Call} (hs : OnlyDeletes s) (ht : OnlyDeletes t) :
    OnlyDeletes (s ++ t) := by
  obtain ⟨ds, hds⟩ := hs
  obtain ⟨dt, hdt⟩ := ht
  exact ⟨ds ++ dt, by simp [consumerCalls_append, hds, hdt]⟩

theorem onlyDeletes_andThen {σ α β : Type} (r : Run σ α) (k : α → σ → Run σ β)
    (hr : OnlyDeletes r.1) (hk : ∀ a w, OnlyDeletes (k a w).1) :
    OnlyDeletes (Run.andThen r k).1 := by
  rcases r with ⟨t, w, c⟩
  cases c with
  | ret err => exact hr
  | fuel => exact hr
  | next a => exact onlyDeletes_append hr (hk a w)

theorem onlyDeletes_deliverDeleted {σ : Type} (lr : LogReader σ) (d : Slice) (w : σ) :
    OnlyDeletes (deliverDeleted lr d w).1 := by
  unfold deliverDeleted
  split
  · rcases h : lr.DeleteLogs d w with ⟨e, w1⟩
    cases e <;> exact ⟨[d], by simp [consumerCalls]⟩
  · exact ⟨[], rfl⟩

/-! ### One pass of the confirm loop and of the drain loop -/

theorem confirmLoop_error {σ : Type} (lr : LogReader σ) (n : Nat) (w w1 : σ) (status : Bool)
    (err : Error) (hc : lr.LogsCursorConfirmReceived w = ((status, some err), w1)) :
    confirmLoop lr (n + 1) w = ([.LogsCursorConfirmReceived status (some err)], w1, .ret err) := by
  simp [confirmLoop, hc]

theorem confirmLoop_confirmed {σ : Type} (lr : LogReader σ) (n : Nat) (w w1 : σ)
    (hc : lr.LogsCursorConfirmReceived w = ((true, none), w1)) :
    confirmLoop lr (n + 1) w = ([.LogsCursorConfirmReceived true none], w1, .next ()) := by
  simp [confirmLoop, hc]

theorem confirmLoop_refused_error {σ : Type} (lr : LogReader σ) (n : Nat) (w w1 w2 : σ)
    (d : Slice) (err : Error)
    (hc : lr.LogsCursorConfirmReceived w = ((false, none), w1))
    (hd : lr.LogsCursorGetDeletedLogs w1 = ((d, some err), w2)) :
    confirmLoop lr (n + 1) w
      = ([.LogsCursorConfirmReceived false none, .LogsCursorGetDeletedLogs d (some err)], w2,
          .ret err) := by
  simp [confirmLoop, hc, hd]

theorem confirmLoop_refused_nil {σ : Type} (lr : LogReader σ) (n : Nat) (w w1 w2 : σ)
    (hc : lr.LogsCursorConfirmReceived w = ((false, none), w1))
    (hd : lr.LogsCursorGetDeletedLogs w1 = ((none, none), w2)) :
    confirmLoop lr (n + 1) w
      = ([.LogsCursorConfirmReceived false none, .LogsCursorGetDeletedLogs none none], w2,
          .ret "missing expected deleted logs") := by
  simp [confirmLoop, hc, hd]

theorem confirmLoop_refused_some {σ : Type} (lr : LogReader σ) (n : Nat) (w w1 w2 : σ)
    (l : List Value)
    (hc : lr.LogsCursorConfirmReceived w = ((false, none), w1))
    (hd : lr.LogsCursorGetDeletedLogs w1 = ((some l, none), w2)) :
    confirmLoop lr (n + 1) w
      = Run.andThen
          (Run.andThen
            ([.LogsCursorConfirmReceived false none, .LogsCursorGetDeletedLogs (some l) none],
              w2, .next ())
            (fun _ w3 => deliverDeleted lr (some l) w3))
          (fun _ w4 => confirmLoop lr n w4) := by
  simp [confirmLoop, hc, hd]

theorem drainLoop_error {σ : Type} (lr : LogReader σ) (n : Nat) (d : Slice) (w w1 : σ)
    (logs : Slice) (err : Error) (hg : lr.LogsCursorGetLogs w = ((logs, some err), w1)) :
    drainLoop lr (n + 1) d w = ([.LogsCursorGetLogs logs (some err)], w1, .ret err) := by
  simp [drainLoop, hg]

theorem drainLoop_break {σ : Type} (lr : LogReader σ) (n : Nat) (d : Slice) (w w1 : σ)
    (logs : Slice) (hg : lr.LogsCursorGetLogs w = ((logs, none), w1))
    (h : logs ≠ none ∨ d ≠ none) :
    drainLoop lr (n + 1) d w = ([.LogsCursorGetLogs logs none], w1, .next (logs, d)) := by
  simp only [drainLoop, hg, if_pos h]

theorem drainLoop_deleted_error {σ : Type} (lr : LogReader σ) (n : Nat) (w w1 w2 : σ)
    (inner : Slice) (err : Error)
    (hg : lr.LogsCursorGetLogs w = ((none, none), w1))
    (hd : lr.LogsCursorGetDeletedLogs w1 = ((inner, some err), w2)) :
    drainLoop lr (n + 1) none w
      = ([.LogsCursorGetLogs none none, .LogsCursorGetDeletedLogs inner (some err)], w2,
          .ret err) := by
  simp [drainLoop, hg, hd]

theorem drainLoop_deleted {σ : Type} (lr : LogReader σ) (n : Nat) (w w1 w2 : σ)
    (l : List Value)
    (hg : lr.LogsCursorGetLogs w = ((none, none), w1))
    (hd : lr.LogsCursorGetDeletedLogs w1 = ((some l, none), w2)) :
    drainLoop lr (n + 1) none w
      = Run.andThen
          ([.LogsCursorGetLogs none none, .LogsCursorGetDeletedLogs (some l) none], w2,
            .next ())
          (fun _ w3 => drainLoop lr n none w3) := by
  simp [drainLoop, hg, hd]

theorem drainLoop_idle {σ : Type} (lr : LogReader σ) (n : Nat) (w w1 w2 : σ)
    (hg : lr.LogsCursorGetLogs w = ((none, none), w1))
    (hd : lr.LogsCursorGetDeletedLogs w1 = ((none, none), w2)) :
    drainLoop lr (n + 1) none w
      = Run.andThen
          ([.LogsCursorGetLogs none none, .LogsCursorGetDeletedLogs none none, .Sleep], w2,
            .next ())
          (fun _ w3 => drainLoop lr n none w3) := by
  simp [drainLoop, hg, hd]

theorem onlyDeletes_confirmLoop {σ : Type} (lr : LogReader σ) (n : Nat) (w : σ) :
    OnlyDeletes (confirmLoop lr n w).1 := by
  induction n generalizing w with
  | zero => exact ⟨[], rfl⟩
  | succ n ih =>
    rcases hc : lr.LogsCursorConfirmReceived w with ⟨⟨status, e⟩, w1⟩
    cases e with
    | some err => rw [confirmLoop_error lr n w w1 status err hc]; exact ⟨[], rfl⟩
    | none =>
      cases status with
      | true => rw [confirmLoop_confirmed lr n w w1 hc]; exact ⟨[], rfl⟩
      | false =>
        rcases hd : lr.LogsCursorGetDeletedLogs w1 with ⟨⟨nd, e2⟩, w2⟩
        cases e2 with
        | some err => rw [confirmLoop_refused_error lr n w w1 w2 nd err hc hd]; exact ⟨[], rfl⟩
        | none =>
          cases nd with
          | none => rw [confirmLoop_refused_nil lr n w w1 w2 hc hd]; exact ⟨[], rfl⟩
          | some l =>
            rw [confirmLoop_refused_some lr n w w1 w2 l hc hd]
            refine onlyDeletes_andThen _ _ (onlyDeletes_andThen _ _ ⟨[], rfl⟩ ?_) ?_
            · intro _ w3
              exact onlyDeletes_deliverDeleted lr _ w3
            · intro _ w4
              exact ih w4

/-- The drain loop started with the outer `deletedLogs` nil makes no call on the
consumer, and when it is left by `break` the outer `deletedLogs` is still nil
and `logs` is not. -/
theorem drainLoop_nil {σ : Type} (lr : LogReader σ) (n : Nat) (w : σ) :
    consumerCalls (drainLoop lr n none w).1 = [] ∧
      ∀ vars, (drainLoop lr n none w).2.2 = .next vars → vars.1 ≠ none ∧ vars.2 = none := by
  induction n generalizing w with
  | zero => exact ⟨rfl, fun _ h => by simp [drainLoop] at h⟩
  | succ n ih =>
    rcases hg : lr.LogsCursorGetLogs w with ⟨⟨logs, e⟩, w1⟩
    cases e with
    | some err =>
      rw [drainLoop_error lr n none w w1 logs err hg]
      exact ⟨rfl, fun _ h => by simp at h⟩
    | none =>
      cases logs with
      | some l =>
        rw [drainLoop_break lr n none w w1 (some l) hg (Or.inl (by simp))]
        refine ⟨rfl, fun vars h => ?_⟩
        simp only [Ctl.next.injEq] at h
        subst h
        simp
      | none =>
        rcases hd : lr.LogsCursorGetDeletedLogs w1 with ⟨⟨inner, e2⟩, w2⟩
        cases e2 with
        | some err =>
          rw [drainLoop_deleted_error lr n w w1 w2 inner err hg hd]
          exact ⟨rfl, fun _ h => by simp at h⟩
        | none =>
          cases inner with
          | some l =>
            rw [drainLoop_deleted lr n w w1 w2 l hg hd, andThen_next]
            exact ⟨by simp [consumerCalls_append, consumerCalls, (ih w2).1], (ih w2).2⟩
          | none =>
            rw [drainLoop_idle lr n w w1 w2 hg hd, andThen_next]
            exact ⟨by simp [consumerCalls_append, consumerCalls, (ih w2).1], (ih w2).2⟩

/-! ### The scripted cursor -/

theorem scripted_drain_idle (m n : Nat) (a : List Value) (s : List Answer) (hm : m < n) :
    drainLoop scripted n none (idleScript m ++ .logs (some a) none :: s)
      = (idleCalls m ++ [.LogsCursorGetLogs (some a) none], s, .next (some a, none)) := by
  induction m generalizing n with
  | zero =>
    obtain ⟨n, rfl⟩ : ∃ k, n = k + 1 := ⟨n - 1, by omega⟩
    exact drainLoop_break scripted n none _ s (some a) rfl (Or.inl (by simp))
  | succ m ih =>
    obtain ⟨n, rfl⟩ : ∃ k, n = k + 1 := ⟨n - 1, by omega⟩
    have h := drainLoop_idle scripted n
      (idleScript (m + 1) ++ .logs (some a) none :: s)
      (.logs none none :: (idleScript m ++ .logs (some a) none :: s))
      (idleScript m ++ .logs (some a) none :: s) rfl rfl
    rw [h, andThen_next, ih n (by omega)]
    rfl

theorem scripted_confirm_reorgs (ds : List (List Value)) (n : Nat) (s : List Answer)
    (hds : ∀ d ∈ ds, d ≠ []) (hn : ds.length < n) :
    confirmLoop scripted n (reorgScript ds ++ .status true none :: s)
      = (reorgCalls ds ++ [.LogsCursorConfirmReceived true none], s, .next ()) := by
  induction ds generalizing n with
  | nil =>
    obtain ⟨n, rfl⟩ : ∃ k, n = k + 1 := ⟨n - 1, by omega⟩
    exact confirmLoop_confirmed scripted n _ s rfl
  | cons d ds ih =>
    obtain ⟨n, rfl⟩ : ∃ k, n = k + 1 := ⟨n - 1, by simp at hn; omega⟩
    have hd : d ≠ [] := hds d (by simp)
    have hlen : 0 < len (some d) := List.length_pos.mpr hd
    have h := confirmLoop_refused_some scripted n
      (reorgScript (d :: ds) ++ .status true none :: s)
      (.logs (some d) none :: .err none :: (reorgScript ds ++ .status true none :: s))
      (.err none :: (reorgScript ds ++ .status true none :: s)) d rfl rfl
    have hdel : deliverDeleted scripted (some d)
        (.err none :: (reorgScript ds ++ .status true none :: s))
        = ([.DeleteLogs (some d) none], reorgScript ds ++ .status true none :: s, .next ()) := by
      unfold deliverDeleted
      rw [if_pos hlen]
      rfl
    rw [h, andThen_next, hdel, andThen_next,
      ih n (fun x hx => hds x (by simp [hx])) (by simp at hn; omega)]
    rfl

theorem idleCalls_no_request (m : Nat) :
    ∀ c ∈ idleCalls m, ∀ e, c ≠ Call.LogsCursorRequest e := by
  induction m with
  | zero => simp [idleCalls]
  | succ m ih =>
    intro c hc e
    simp only [idleCalls, List.mem_cons] at hc
    rcases hc with h | h | h | h
    · simp [h]
    · simp [h]
    · simp [h]
    · exact ih c h e

theorem reorgCalls_no_request (ds : List (List Value)) :
    ∀ c ∈ reorgCalls ds, ∀ e, c ≠ Call.LogsCursorRequest e := by
  induction ds with
  | nil => simp [reorgCalls]
  | cons d ds ih =>
    intro c hc e
    simp only [reorgCalls, List.mem_cons] at hc
    rcases hc with h | h | h | h
    · simp [h]
    · simp [h]
    · simp [h]
    · exact ih c h e

theorem consumerCalls_idleCalls (m : Nat) : consumerCalls (idleCalls m) = [] := by
  induction m with
  | zero => rfl
  | succ m ih => simpa [idleCalls, consumerCalls] using ih

theorem consumerCalls_reorgCalls (ds : List (List Value)) :
    consumerCalls (reorgCalls ds) = ds.map fun d => Sum.inr (some d) := by
  induction ds with
  | nil => rfl
  | cons d ds ih => simp [reorgCalls, consumerCalls, ih]

/-! ### The claims on `LogReader.getLogs` -/

/-- C1, as stated, fails: in this run one drain yields the deleted batch `[7]`
and the added batch `[1, 2]`, and the only call the consumer receives is
`AddLogs([1, 2])`; `DeleteLogs([7])` is not delivered before it (nor after). -/
theorem getLogs_drain_both_no_delete_first :
    getLogs scripted 5 drainBothScript
        = ([.LogsCursorRequest none, .LogsCursorGetLogs none none,
            .LogsCursorGetDeletedLogs (some [7]) none, .LogsCursorGetLogs (some [1, 2]) none,
            .AddLogs (some [1, 2]) none, .LogsCursorConfirmReceived true none,
            .LogsCursorRequest (some "script")], [], .ret "script") ∧
      consumerCalls (getLogs scripted 5 drainBothScript).1 = [Sum.inl (some [1, 2])] := by
  decide

/-- C1 (amended): in every pass of the outer loop of `getLogs` whose drain ends
with a non-empty batch `logs` of added logs, the first call the consumer
receives is `AddLogs(logs)`, and every other call it receives in that pass is a
`DeleteLogs` that comes after it. -/
theorem round_addLogs_first {σ : Type} (lr : LogReader σ) (n : Nat) (w w1 w2 : σ)
    (t : List Call) (logs deletedLogs : Slice)
    (hreq : lr.LogsCursorRequest w = (none, w1))
    (hdrain : drainLoop lr n none w1 = (t, w2, .next (logs, deletedLogs)))
    (hlen : 0 < len logs) :
    ∃ dels : List Slice, consumerCalls (round lr n w).1 = Sum.inl logs :: dels.map Sum.inr := by
  have ht : consumerCalls t = [] := by
    have := (drainLoop_nil lr n w1).1
    rwa [hdrain] at this
  have hr : request lr w = ([.LogsCursorRequest none], w1, .next ()) := by
    simp [request, hreq]
  unfold round
  rw [hr, andThen_next, hdrain, andThen_next]
  simp only [deliverAdded, if_pos hlen]
  rcases ha : lr.AddLogs logs w2 with ⟨e, w3⟩
  cases e with
  | some err =>
    refine ⟨[], ?_⟩
    simp [andThen_ret, consumerCalls_append, consumerCalls, ht]
  | none =>
    obtain ⟨dels, hdels⟩ :=
      onlyDeletes_andThen (deliverDeleted lr deletedLogs w3) (fun _ w4 => confirmLoop lr n w4)
        (onlyDeletes_deliverDeleted lr deletedLogs w3) (fun _ w4 => onlyDeletes_confirmLoop lr n w4)
    refine ⟨dels, ?_⟩
    simp [andThen_next, consumerCalls_append, consumerCalls, ht, hdels]

/-- The amended C1 at a run whose drain yields `[7]` deleted and `[1, 2]` added. -/
theorem round_addLogs_first_witness :
    ∃ dels : List Slice,
      consumerCalls (round scripted 4 drainBothScript).1
        = Sum.inl (some [1, 2]) :: dels.map Sum.inr :=
  round_addLogs_first scripted 4 drainBothScript drainBothScript.tail
    [.err none, .status true none]
    [.LogsCursorGetLogs none none, .LogsCursorGetDeletedLogs (some [7]) none,
      .LogsCursorGetLogs (some [1, 2]) none]
    (some [1, 2]) none rfl (by decide) (by decide)

/-- C2 at a failing run: `GetLogs` returns nil, `GetDeletedLogs` returns `[7]`,
and the next `GetLogs` returns nil again.  The drain loop does not end there:
it polls `GetDeletedLogs` once more, sleeps, and ends only when `GetLogs`
returns `[1]`; the consumer never receives `DeleteLogs([7])`, and
`ConfirmReceived` is called without it. -/
theorem getLogs_drops_drained_deleted_logs :
    getLogs scripted 5 drainDeletedOnlyScript
        = ([.LogsCursorRequest none, .LogsCursorGetLogs none none,
            .LogsCursorGetDeletedLogs (some [7]) none, .LogsCursorGetLogs none none,
            .LogsCursorGetDeletedLogs none none, .Sleep, .LogsCursorGetLogs (some [1]) none,
            .AddLogs (some [1]) none, .LogsCursorConfirmReceived true none,
            .LogsCursorRequest (some "script")], [], .ret "script") := by
  decide

/-- C3, as stated, fails for a non-nil batch of length zero: after the refused
confirmation and the empty batch, `getLogs` does not return "missing expected
deleted logs"; it calls `ConfirmReceived` again and goes on to the next
`LogsCursorRequest`. -/
theorem getLogs_refused_empty_batch_goes_on :
    getLogs scripted 5 refusedEmptyScript
        = ([.LogsCursorRequest none, .LogsCursorGetLogs (some [1, 2]) none,
            .AddLogs (some [1, 2]) none, .LogsCursorConfirmReceived false none,
            .LogsCursorGetDeletedLogs (some []) none, .LogsCursorConfirmReceived true none,
            .LogsCursorRequest (some "script")], [], .ret "script") := by
  decide

/-- C3 (amended): whenever `getLogs` stands at the confirm loop,
`LogsCursorConfirmReceived` returns false and the follow-up
`LogsCursorGetDeletedLogs` returns nil, `getLogs` returns the error "missing
expected deleted logs" right after these two calls; when the follow-up returns
a non-nil batch of length zero instead, `getLogs` makes no call on the consumer
and stands at the head of the confirm loop again. -/
theorem getLogs_refused_without_deleted_logs {σ : Type} (lr : LogReader σ) (n m : Nat)
    (w w1 w2 : σ) (hc : lr.LogsCursorConfirmReceived w = ((false, none), w1)) :
    (lr.LogsCursorGetDeletedLogs w1 = ((none, none), w2) →
      resumeAtConfirm lr (n + 1) m w
        = ([.LogsCursorConfirmReceived false none, .LogsCursorGetDeletedLogs none none], w2,
            .ret "missing expected deleted logs")) ∧
    (lr.LogsCursorGetDeletedLogs w1 = ((some [], none), w2) →
      resumeAtConfirm lr (n + 1) m w
        = Run.andThen
            ([.LogsCursorConfirmReceived false none,
              .LogsCursorGetDeletedLogs (some []) none], w2, .next ())
            (fun _ w3 => resumeAtConfirm lr n m w3)) := by
  constructor
  · intro hd
    rw [resumeAtConfirm, confirmLoop_refused_nil lr n w w1 w2 hc hd, andThen_ret]
  · intro hd
    have hdel : ∀ w3, deliverDeleted lr (some []) w3 = ([], w3, .next ()) := by
      intro w3
      simp [deliverDeleted, len]
    rw [resumeAtConfirm, confirmLoop_refused_some lr n w w1 w2 [] hc hd, andThen_assoc,
      andThen_assoc]
    simp only [hdel, andThen_next, List.nil_append, resumeAtConfirm]

/-- The amended C3 at a cursor that refuses and then returns nil, and at one
that refuses and then returns a non-nil batch of length zero. -/
theorem getLogs_refused_without_deleted_logs_witness :
    resumeAtConfirm scripted 1 0 [.status false none, .logs none none]
        = ([.LogsCursorConfirmReceived false none, .LogsCursorGetDeletedLogs none none], [],
            .ret "missing expected deleted logs") ∧
      resumeAtConfirm scripted 2 1 [.status false none, .logs (some []) none, .status true none]
        = Run.andThen
            ([.LogsCursorConfirmReceived false none,
              .LogsCursorGetDeletedLogs (some []) none], [.status true none], .next ())
            (fun _ w3 => resumeAtConfirm scripted 1 1 w3) :=
  ⟨(getLogs_refused_without_deleted_logs scripted 0 0
      [.status false none, .logs none none] [.logs none none] [] rfl).1 rfl,
   (getLogs_refused_without_deleted_logs scripted 1 1
      [.status false none, .logs (some []) none, .status true none]
      [.logs (some []) none, .status true none] [.status true none] rfl).2 rfl⟩

/-- C4: a pass of the outer loop of `getLogs` in which the request is accepted,
`GetLogs` returns the non-empty batch `a` (after `m` polls that found nothing),
the consumer accepts every batch, and `ConfirmReceived` returns false once per
non-empty batch of `ds` before it returns true.  The calls of the pass are
exactly `roundCalls m a ds`; the consumer receives `AddLogs(a)` and then
`DeleteLogs(d)` for each `d` of `ds` in order, with the batches unchanged; the
pass makes a single `LogsCursorRequest`, its first call, and its last call is
the confirmation that returned true, after which `getLogs` starts its next pass
(whose first call is the next `LogsCursorRequest`). -/
theorem getLogs_round_with_reorgs (m n : Nat) (a : List Value) (ds : List (List Value))
    (rest : List Answer) (ha : a ≠ []) (hds : ∀ d ∈ ds, d ≠ []) (hm : m < n)
    (hk : ds.length < n) :
    getLogs scripted (n + 1) (roundScript m a ds ++ rest)
        = Run.andThen (roundCalls m a ds, rest, .next ()) (fun _ w => getLogs scripted n w) ∧
      consumerCalls (roundCalls m a ds)
        = Sum.inl (some a) :: ds.map (fun d => Sum.inr (some d)) ∧
      ∃ body, roundCalls m a ds
          = .LogsCursorRequest none :: (body ++ [.LogsCursorConfirmReceived true none]) ∧
        ∀ c ∈ body, ∀ e, c ≠ Call.LogsCursorRequest e := by
  refine ⟨?_, ?_, ?_⟩
  · have hlen : 0 < len (some a) := List.length_pos.mpr ha
    have hscript : roundScript m a ds ++ rest
        = .err none :: (idleScript m ++ .logs (some a) none ::
            .err none :: (reorgScript ds ++ .status true none :: rest)) := by
      simp [roundScript]
    have hreq : request scripted (roundScript m a ds ++ rest)
        = ([.LogsCursorRequest none], idleScript m ++ .logs (some a) none ::
            .err none :: (reorgScript ds ++ .status true none :: rest), .next ()) := by
      rw [hscript]
      rfl
    have hadd : deliverAdded scripted (some a)
        (.err none :: (reorgScript ds ++ .status true none :: rest))
        = ([.AddLogs (some a) none], reorgScript ds ++ .status true none :: rest, .next ()) := by
      unfold deliverAdded
      rw [if_pos hlen]
      rfl
    have hdel : ∀ w : List Answer, deliverDeleted scripted none w = ([], w, .next ()) := by
      intro w
      simp [deliverDeleted, len]
    rw [getLogs, round, hreq, andThen_next, scripted_drain_idle m n a _ hm, andThen_next,
      hadd, andThen_next, hdel, andThen_next, scripted_confirm_reorgs ds n rest hds hk]
    simp [Run.andThen, roundCalls]
  · simp [roundCalls, consumerCalls_append, consumerCalls, consumerCalls_idleCalls,
      consumerCalls_reorgCalls]
  · refine ⟨idleCalls m ++ (.LogsCursorGetLogs (some a) none :: .AddLogs (some a) none ::
      reorgCalls ds), by simp [roundCalls], ?_⟩
    intro c hc e
    simp only [List.mem_append, List.mem_cons] at hc
    rcases hc with h | h | h | h
    · exact idleCalls_no_request m c h e
    · simp [h]
    · simp [h]
    · exact reorgCalls_no_request ds c h e

/-- C4 at a pass with one idle poll, the batch `[1, 2]` and two reorgs. -/
theorem getLogs_round_with_reorgs_witness :
    getLogs scripted 4 (roundScript 1 [1, 2] [[2], [1]] ++ [])
        = Run.andThen (roundCalls 1 [1, 2] [[2], [1]], [], .next ())
            (fun _ w => getLogs scripted 3 w) ∧
      consumerCalls (roundCalls 1 [1, 2] [[2], [1]])
        = Sum.inl (some [1, 2]) :: [[2], [1]].map (fun d => Sum.inr (some d)) ∧
      ∃ body, roundCalls 1 [1, 2] [[2], [1]]
          = .LogsCursorRequest none :: (body ++ [.LogsCursorConfirmReceived true none]) ∧
        ∀ c ∈ body, ∀ e, c ≠ Call.LogsCursorRequest e :=
  getLogs_round_with_reorgs 1 3 [1, 2] [[2], [1]] [] (by decide) (by decide) (by decide)
    (by decide)

end Core

namespace Ethbridge

/-! ### Append loops and integer conversions -/

/-- A loop whose body succeeds on every index below `n` returns a list of
length `n` whose `i`-th element is the result of pass `i`. -/
theorem appendLoop_some {α : Type} (body : Nat → Option α) (n : Nat)
    (h : ∀ i, i < n → ∃ x, body i = some x) :
    ∃ l, appendLoop body n = some l ∧ l.length = n ∧ ∀ i, i < n → l[i]? = body i := by
  induction n with
  | zero => exact ⟨[], rfl, rfl, fun i hi => absurd hi (Nat.not_lt_zero i)⟩
  | succ n ih =>
    obtain ⟨acc, hacc, hlen, hget⟩ := ih fun i hi => h i (Nat.lt_succ_of_lt hi)
    obtain ⟨x, hx⟩ := h n (Nat.lt_succ_self n)
    refine ⟨acc ++ [x], by simp [appendLoop, hacc, hx], by simp [hlen], ?_⟩
    intro i hi
    rcases Nat.lt_succ_iff_lt_or_eq.mp hi with hlt | heq
    · rw [List.getElem?_append_left (by omega), hget i hlt]
    · subst heq
      rw [List.getElem?_append_right (by omega), hx]
      simp [hlen]

theorem uint32_of_lt {x : Nat} (h : x < 2 ^ 32) : uint32 x = x :=
  Nat.mod_eq_of_lt h

theorem uint64_of_lt {x : Nat} (h : x < 2 ^ 32) : uint64 x = x :=
  Nat.mod_eq_of_lt (lt_trans h (by norm_num))

theorem uint32OfInt_pred {n : Nat} (h : n < 2 ^ 32) :
    uint32OfInt (((n + 1 : Nat) : Int) - 1) = n := by
  have h1 : ((n + 1 : Nat) : Int) - 1 = (n : Int) := by push_cast; ring
  have h2 : (n : Int) % 2 ^ 32 = (n : Int) :=
    Int.emod_eq_of_lt (Int.natCast_nonneg n) (by exact_mod_cast h)
  rw [uint32OfInt, h1, h2, Int.toNat_natCast]

/-- When `uint32(len(chainHashes) - 1)` is 0 the loop of
`pendingTopChallenge.ChooseSegment` makes no pass. -/
theorem ChooseSegment_of_count_zero (S : Structures) (assertionToChallenge : Nat)
    (chainHashes : List Hash) (chainLength : Nat)
    (h : uint32OfInt ((chainHashes.length : Int) - 1) = 0) :
    pendingTopChallenge.ChooseSegment S assertionToChallenge chainHashes chainLength
      = some ⟨assertionToChallenge, []⟩ := by
  simp only [pendingTopChallenge.ChooseSegment, h, appendLoop]

/-- One pass of the loop of `translateBisectionEvent` on arrays that are long
enough for the index `i`. -/
theorem translate_pass (event : ExecutionChallengeBisectedAssertion) (i : Nat)
    (h1 : i + 1 < event.MachineHashes.length) (h2 : i < event.DidInboxInsns.length)
    (h3 : i < event.Gases.length) (h4 : i + 1 < event.MessageAccs.length)
    (h5 : i + 1 < event.LogAccs.length) :
    ∃ stub : ExecutionAssertionStub,
      (match event.MachineHashes[i + 1]?, event.DidInboxInsns[i]?, event.Gases[i]?,
          event.MessageAccs[i]?, event.MessageAccs[i + 1]?, event.LogAccs[i]?,
          event.LogAccs[i + 1]? with
        | some afterHash, some didInboxInsn, some numGas, some firstMessageHash,
          some lastMessageHash, some firstLogHash, some lastLogHash =>
          some {
            AfterHash := afterHash
            DidInboxInsn := didInboxInsn
            NumGas := numGas
            FirstMessageHash := firstMessageHash
            LastMessageHash := lastMessageHash
            FirstLogHash := firstLogHash
            LastLogHash := lastLogHash }
        | _, _, _, _, _, _, _ => none) = some stub ∧
      event.MachineHashes[i + 1]? = some stub.AfterHash ∧
      event.DidInboxInsns[i]? = some stub.DidInboxInsn ∧
      event.Gases[i]? = some stub.NumGas ∧
      event.MessageAccs[i]? = some stub.FirstMessageHash ∧
      event.MessageAccs[i + 1]? = some stub.LastMessageHash ∧
      event.LogAccs[i]? = some stub.FirstLogHash ∧
      event.LogAccs[i + 1]? = some stub.LastLogHash := by
  rw [List.getElem?_eq_getElem h1, List.getElem?_eq_getElem h2, List.getElem?_eq_getElem h3,
    List.getElem?_eq_getElem (show i < event.MessageAccs.length by omega),
    List.getElem?_eq_getElem h4,
    List.getElem?_eq_getElem (show i < event.LogAccs.length by omega),
    List.getElem?_eq_getElem h5]
  exact ⟨_, rfl, rfl, rfl, rfl, rfl, rfl, rfl, rfl⟩

/-- The translation of an event whose arrays are at least as long as the loop
reads: `n` stubs, the `i`-th built from the entries at `i` and `i + 1`. -/
theorem translate_of_long_enough (event : ExecutionChallengeBisectedAssertion) (n : Nat)
    (hm : event.MachineHashes.length = n + 1) (hd : n ≤ event.DidInboxInsns.length)
    (hg : n ≤ event.Gases.length) (hma : n = 0 ∨ n + 1 ≤ event.MessageAccs.length)
    (hla : n = 0 ∨ n + 1 ≤ event.LogAccs.length) :
    ∃ stubs, translateBisectionEvent event = some stubs ∧ stubs.length = n ∧
      ∀ i, i < n → ∃ stub, stubs[i]? = some stub ∧
        event.MachineHashes[i + 1]? = some stub.AfterHash ∧
        event.DidInboxInsns[i]? = some stub.DidInboxInsn ∧
        event.Gases[i]? = some stub.NumGas ∧
        event.MessageAccs[i]? = some stub.FirstMessageHash ∧
        event.MessageAccs[i + 1]? = some stub.LastMessageHash ∧
        event.LogAccs[i]? = some stub.FirstLogHash ∧
        event.LogAccs[i + 1]? = some stub.LastLogHash := by
  have hpass : ∀ i, i < n → _ := fun i hi =>
    translate_pass event i (by omega) (by omega) (by omega) (by omega) (by omega)
  obtain ⟨stubs, hloop, hlen, hget⟩ :=
    appendLoop_some _ n fun i hi => ⟨(hpass i hi).choose, (hpass i hi).choose_spec.1⟩
  refine ⟨stubs, ?_, hlen, ?_⟩
  · simp only [translateBisectionEvent, hm, Nat.add_sub_cancel]
    simpa using hloop
  · intro i hi
    exact ⟨(hpass i hi).choose, (hget i hi).trans (hpass i hi).choose_spec.1,
      (hpass i hi).choose_spec.2⟩

/-! ### The claims on the execution and pending-top challenges -/

/-- C5: for every BisectedAssertion event with `n + 1` machine hashes, `n + 1`
message accumulators, `n + 1` log accumulators, `n` inbox flags and `n` gas
values, `translateBisectionEvent` returns exactly `n` stubs, and the `i`-th stub
has `AfterHash = MachineHashes[i+1]`, `DidInboxInsn = DidInboxInsns[i]`,
`NumGas = Gases[i]`, `FirstMessageHash = MessageAccs[i]`,
`LastMessageHash = MessageAccs[i+1]`, `FirstLogHash = LogAccs[i]` and
`LastLogHash = LogAccs[i+1]`. -/
theorem translateBisectionEvent_stubs (event : ExecutionChallengeBisectedAssertion) (n : Nat)
    (hm : event.MachineHashes.length = n + 1) (hma : event.MessageAccs.length = n + 1)
    (hla : event.LogAccs.length = n + 1) (hd : event.DidInboxInsns.length = n)
    (hg : event.Gases.length = n) :
    ∃ stubs, translateBisectionEvent event = some stubs ∧ stubs.length = n ∧
      ∀ i, i < n → ∃ stub, stubs[i]? = some stub ∧
        event.MachineHashes[i + 1]? = some stub.AfterHash ∧
        event.DidInboxInsns[i]? = some stub.DidInboxInsn ∧
        event.Gases[i]? = some stub.NumGas ∧
        event.MessageAccs[i]? = some stub.FirstMessageHash ∧
        event.MessageAccs[i + 1]? = some stub.LastMessageHash ∧
        event.LogAccs[i]? = some stub.FirstLogHash ∧
        event.LogAccs[i + 1]? = some stub.LastLogHash :=
  translate_of_long_enough event n hm (by omega) (by omega) (Or.inr (by omega))
    (Or.inr (by omega))

/-- C5 at an event with two segments. -/
theorem translateBisectionEvent_stubs_witness :
    ∃ stubs, translateBisectionEvent ⟨[10, 11, 12], [true, false], [20, 21, 22],
        [30, 31, 32], [5, 6], 100, 9⟩ = some stubs ∧ stubs.length = 2 ∧
      ∀ i, i < 2 → ∃ stub, stubs[i]? = some stub ∧
        [10, 11, 12][i + 1]? = some stub.AfterHash ∧
        [true, false][i]? = some stub.DidInboxInsn ∧
        [5, 6][i]? = some stub.NumGas ∧
        [20, 21, 22][i]? = some stub.FirstMessageHash ∧
        [20, 21, 22][i + 1]? = some stub.LastMessageHash ∧
        [30, 31, 32][i]? = some stub.FirstLogHash ∧
        [30, 31, 32][i + 1]? = some stub.LastLogHash :=
  translateBisectionEvent_stubs ⟨[10, 11, 12], [true, false], [20, 21, 22], [30, 31, 32],
    [5, 6], 100, 9⟩ 2 rfl rfl rfl rfl rfl

/-- C6, as stated, fails: the decoded event has 2 machine hashes (one segment)
and 3 message accumulators instead of 2; `processEvents` returns no error,
looks up the header and sends the `ExecutionBisectionEvent` notification, with
one stub built from the first two message accumulators. -/
theorem processEvents_accepts_mismatched_shape :
    sampleExecutionChallenge.processEvents ⟨[1], 50, 60⟩
      = ⟨[50],
          [{ BlockHeader := 50
             BlockHeight := 12
             VMID := 77
             Event := some (.ExecutionBisectionEvent [⟨11, true, 5, 20, 21, 30, 31⟩] 100 9)
             TxHash := 60 }],
          .returned none⟩ := by
  decide

/-- C6 (amended): the execution challenge does not validate the shape of a
bisection.  For every log whose first topic is the BisectedAssertion ID and
whose decoded event has `n + 1` machine hashes and arrays at least as long as
the translation reads (at least `n + 1` message and log accumulators, at least
`n` inbox flags and gas values; entries beyond those are ignored),
`translateBisectionEvent` returns `n` stubs built from the leading entries (the
`i`-th stub has `AfterHash = MachineHashes[i+1]`, `DidInboxInsn =
DidInboxInsns[i]`, `NumGas = Gases[i]`, `FirstMessageHash = MessageAccs[i]`,
`LastMessageHash = MessageAccs[i+1]`, `FirstLogHash = LogAccs[i]` and
`LastLogHash = LogAccs[i+1]`), and when the header lookup succeeds
`processEvents` sends the `ExecutionBisectionEvent` notification carrying these
stubs and returns nil. -/
theorem processEvents_bisection_not_validated (c : executionChallenge) (log : Log)
    (rest : List Hash) (event : ExecutionChallengeBisectedAssertion) (header : Header)
    (n : Nat) (htopic : log.Topics = c.bisectedAssertionID :: rest)
    (hparse : c.ParseBisectedAssertion log = .ok event)
    (hm : event.MachineHashes.length = n + 1) (hma : n + 1 ≤ event.MessageAccs.length)
    (hla : n + 1 ≤ event.LogAccs.length) (hd : n ≤ event.DidInboxInsns.length)
    (hg : n ≤ event.Gases.length) (hheader : c.HeaderByHash log.BlockHash = .ok header) :
    ∃ stubs, translateBisectionEvent event = some stubs ∧ stubs.length = n ∧
      (∀ i, i < n → ∃ stub, stubs[i]? = some stub ∧
        event.MachineHashes[i + 1]? = some stub.AfterHash ∧
        event.DidInboxInsns[i]? = some stub.DidInboxInsn ∧
        event.Gases[i]? = some stub.NumGas ∧
        event.MessageAccs[i]? = some stub.FirstMessageHash ∧
        event.MessageAccs[i + 1]? = some stub.LastMessageHash ∧
        event.LogAccs[i]? = some stub.FirstLogHash ∧
        event.LogAccs[i + 1]? = some stub.LastLogHash) ∧
      c.processEvents log
        = ⟨[log.BlockHash],
            [{ BlockHeader := header.Hash
               BlockHeight := header.Number
               VMID := c.address
               Event := some (.ExecutionBisectionEvent stubs event.TotalSteps
                 event.DeadlineTicks)
               TxHash := log.TxHash }],
            .returned none⟩ := by
  obtain ⟨stubs, hstubs, hlen, hget⟩ :=
    translate_of_long_enough event n hm hd hg (Or.inr hma) (Or.inr hla)
  refine ⟨stubs, hstubs, hlen, hget, ?_⟩
  simp [executionChallenge.processEvents, executionChallenge.parseEvent, htopic, hparse,
    hstubs, hheader]

/-- The amended C6 at an event with one segment and three message accumulators. -/
theorem processEvents_bisection_not_validated_witness :
    ∃ stubs, translateBisectionEvent ⟨[10, 11], [true], [20, 21, 22], [30, 31], [5], 100, 9⟩
        = some stubs ∧ stubs.length = 1 ∧
      (∀ i, i < 1 → ∃ stub, stubs[i]? = some stub ∧
        [10, 11][i + 1]? = some stub.AfterHash ∧
        [true][i]? = some stub.DidInboxInsn ∧
        [5][i]? = some stub.NumGas ∧
        [20, 21, 22][i]? = some stub.FirstMessageHash ∧
        [20, 21, 22][i + 1]? = some stub.LastMessageHash ∧
        [30, 31][i]? = some stub.FirstLogHash ∧
        [30, 31][i + 1]? = some stub.LastLogHash) ∧
      sampleExecutionChallenge.processEvents ⟨[1], 50, 60⟩
        = ⟨[50],
            [{ BlockHeader := 50
               BlockHeight := 12
               VMID := 77
               Event := some (.ExecutionBisectionEvent stubs 100 9)
               TxHash := 60 }],
            .returned none⟩ :=
  processEvents_bisection_not_validated sampleExecutionChallenge ⟨[1], 50, 60⟩ []
    ⟨[10, 11], [true], [20, 21, 22], [30, 31], [5], 100, 9⟩ ⟨50, 12⟩ 1 rfl rfl rfl
    (by decide) (by decide) (by decide) (by decide) rfl

/-- C7: for both challenges, a log whose first topic is neither of the
challenge's two own event IDs and in which `parseBisectionEvent` recognises
nothing (nil event, nil error) makes `processEvents` return the error "unknown
arbitrum event type" without a header lookup and without a notification. -/
theorem processEvents_unknown_event (c : executionChallenge) (p : pendingTopChallenge)
    (log : Log) (topic0 : Hash) (rest : List Hash) (htopic : log.Topics = topic0 :: rest) :
    (topic0 ≠ c.bisectedAssertionID → topic0 ≠ c.oneStepProofCompletedID →
      c.parseBisectionEvent log = (none, none) →
      c.processEvents log = ⟨[], [], .returned (some "unknown arbitrum event type")⟩) ∧
    (topic0 ≠ p.pendingTopBisectedID → topic0 ≠ p.pendingTopOneStepProofCompletedID →
      p.parseBisectionEvent log = (none, none) →
      p.processEvents log = ⟨[], [], .returned (some "unknown arbitrum event type")⟩) := by
  constructor
  · intro h1 h2 h3
    simp [executionChallenge.processEvents, executionChallenge.parseEvent, htopic, h1, h2, h3]
  · intro h1 h2 h3
    simp [pendingTopChallenge.processEvents, pendingTopChallenge.parseEvent, htopic, h1, h2,
      h3]

/-- C7 at a log whose first topic is 5, for contracts with the IDs 1, 2 and 3, 4. -/
theorem processEvents_unknown_event_witness :
    sampleExecutionChallenge.processEvents ⟨[5], 50, 60⟩
        = ⟨[], [], .returned (some "unknown arbitrum event type")⟩ ∧
      samplePendingTopChallenge.processEvents ⟨[5], 50, 60⟩
        = ⟨[], [], .returned (some "unknown arbitrum event type")⟩ :=
  ⟨(processEvents_unknown_event sampleExecutionChallenge samplePendingTopChallenge
      ⟨[5], 50, 60⟩ 5 [] rfl).1 (by decide) (by decide) rfl,
   (processEvents_unknown_event sampleExecutionChallenge samplePendingTopChallenge
      ⟨[5], 50, 60⟩ 5 [] rfl).2 (by decide) (by decide) rfl⟩

/-- C8: for every list of `N` assertions and every list of at least `N`
preconditions, `executionChallenge.ChooseSegment` calls `chooseSegment` with
the index `assertionToChallenge` unchanged and with exactly `N` segment hashes,
in index order, whose `i`-th element is `ExecutionDataHash` of the step count,
`preconditions[i].Hash()` and `assertions[i].Hash()`.  The step count is
`CalculateBisectionStepCount` at `uint32(i)`, `uint32(N)` and `totalSteps`, the
conversions being the ones to the parameter type of that function; they leave
`i` and `N` as they are for every `N` below `2 ^ 32`. -/
theorem executionChallenge_ChooseSegment_hashes (S : Structures) (assertionToChallenge : Nat)
    (preconditions : List Precondition) (assertions : List ExecutionAssertionStub)
    (totalSteps : Nat) (hlen : assertions.length ≤ preconditions.length) :
    ∃ hashes,
      executionChallenge.ChooseSegment S assertionToChallenge preconditions assertions
          totalSteps = some ⟨assertionToChallenge, hashes⟩ ∧
      hashes.length = assertions.length ∧
      ∀ i, i < assertions.length → ∃ precondition assertion,
        preconditions[i]? = some precondition ∧ assertions[i]? = some assertion ∧
        hashes[i]? = some (S.ExecutionDataHash
          (S.CalculateBisectionStepCount (uint32 i) (uint32 assertions.length) totalSteps)
          (S.PreconditionHash precondition) (S.AssertionHash assertion)) ∧
        (assertions.length < 2 ^ 32 →
          hashes[i]? = some (S.ExecutionDataHash
            (S.CalculateBisectionStepCount i assertions.length totalSteps)
            (S.PreconditionHash precondition) (S.AssertionHash assertion))) := by
  have hpass : ∀ i, i < assertions.length → ∃ precondition assertion,
      preconditions[i]? = some precondition ∧ assertions[i]? = some assertion :=
    fun i hi => ⟨_, _, List.getElem?_eq_getElem (by omega), List.getElem?_eq_getElem hi⟩
  obtain ⟨hashes, hloop, hlength, hget⟩ := appendLoop_some
    (fun i =>
      match preconditions[i]?, assertions[i]? with
      | some precondition, some assertion =>
        some (S.ExecutionDataHash
          (S.CalculateBisectionStepCount (uint32 i) (uint32 assertions.length) totalSteps)
          (S.PreconditionHash precondition) (S.AssertionHash assertion))
      | _, _ => none) assertions.length
    (fun i hi => by
      obtain ⟨p, a, hp, ha⟩ := hpass i hi
      simp only [hp, ha]
      exact ⟨_, rfl⟩)
  refine ⟨hashes, ?_, hlength, ?_⟩
  · simp only [executionChallenge.ChooseSegment, hloop]
  · intro i hi
    obtain ⟨p, a, hp, ha⟩ := hpass i hi
    have hi_th : hashes[i]? = some (S.ExecutionDataHash
        (S.CalculateBisectionStepCount (uint32 i) (uint32 assertions.length) totalSteps)
        (S.PreconditionHash p) (S.AssertionHash a)) := by
      rw [hget i hi]
      simp only [hp, ha]
    refine ⟨p, a, hp, ha, hi_th, fun hN => ?_⟩
    rw [hi_th, uint32_of_lt hN, uint32_of_lt (lt_trans hi hN)]

/-- C8 at two assertions and three preconditions. -/
theorem executionChallenge_ChooseSegment_hashes_witness :
    ∃ hashes,
      executionChallenge.ChooseSegment sampleStructures 1
          [⟨1, 2, (0, 9)⟩, ⟨3, 4, (0, 9)⟩, ⟨5, 6, (0, 9)⟩]
          [⟨11, true, 5, 20, 21, 30, 31⟩, ⟨12, false, 6, 21, 22, 31, 32⟩] 101
        = some ⟨1, hashes⟩ ∧
      hashes.length
        = [(⟨11, true, 5, 20, 21, 30, 31⟩ : ExecutionAssertionStub),
            ⟨12, false, 6, 21, 22, 31, 32⟩].length ∧
      ∀ i, i < [(⟨11, true, 5, 20, 21, 30, 31⟩ : ExecutionAssertionStub),
            ⟨12, false, 6, 21, 22, 31, 32⟩].length → ∃ precondition assertion,
        [(⟨1, 2, (0, 9)⟩ : Precondition), ⟨3, 4, (0, 9)⟩, ⟨5, 6, (0, 9)⟩][i]?
          = some precondition ∧
        [(⟨11, true, 5, 20, 21, 30, 31⟩ : ExecutionAssertionStub),
            ⟨12, false, 6, 21, 22, 31, 32⟩][i]? = some assertion ∧
        hashes[i]? = some (sampleStructures.ExecutionDataHash
          (sampleStructures.CalculateBisectionStepCount (uint32 i)
            (uint32 [(⟨11, true, 5, 20, 21, 30, 31⟩ : ExecutionAssertionStub),
              ⟨12, false, 6, 21, 22, 31, 32⟩].length) 101)
          (sampleStructures.PreconditionHash precondition)
          (sampleStructures.AssertionHash assertion)) ∧
        ([(⟨11, true, 5, 20, 21, 30, 31⟩ : ExecutionAssertionStub),
            ⟨12, false, 6, 21, 22, 31, 32⟩].length < 2 ^ 32 →
          hashes[i]? = some (sampleStructures.ExecutionDataHash
            (sampleStructures.CalculateBisectionStepCount i
              [(⟨11, true, 5, 20, 21, 30, 31⟩ : ExecutionAssertionStub),
                ⟨12, false, 6, 21, 22, 31, 32⟩].length 101)
            (sampleStructures.PreconditionHash precondition)
            (sampleStructures.AssertionHash assertion))) :=
  executionChallenge_ChooseSegment_hashes sampleStructures 1
    [⟨1, 2, (0, 9)⟩, ⟨3, 4, (0, 9)⟩, ⟨5, 6, (0, 9)⟩]
    [⟨11, true, 5, 20, 21, 30, 31⟩, ⟨12, false, 6, 21, 22, 31, 32⟩] 101 (by decide)

/-- C9, as stated, fails on a list of `2 ^ 32 + 1` chain hashes (`N = 2 ^ 32`):
`uint32(len(chainHashes) - 1)` is 0, the loop makes no pass, and `chooseSegment`
is called with no segment hash at all instead of `2 ^ 32` of them. -/
theorem pendingTop_ChooseSegment_count_wraps :
    (List.replicate (2 ^ 32 + 1) (0 : Hash)).length = 2 ^ 32 + 1 ∧
      pendingTopChallenge.ChooseSegment sampleStructures 0
        (List.replicate (2 ^ 32 + 1) (0 : Hash)) 100 = some ⟨0, []⟩ := by
  have hlen : (List.replicate (2 ^ 32 + 1) (0 : Hash)).length = 2 ^ 32 + 1 :=
    List.length_replicate _ _
  have hwrap : uint32OfInt (((2 ^ 32 + 1 : Nat) : Int) - 1) = 0 := by
    have h1 : (((2 ^ 32 + 1 : Nat) : Int) - 1) = 2 ^ 32 := by norm_num
    rw [uint32OfInt, h1, Int.emod_self]
    rfl
  exact ⟨hlen, ChooseSegment_of_count_zero sampleStructures 0 _ 100 (by rw [hlen]; exact hwrap)⟩

/-- C9 (amended): for every list `chainHashes` of length `N + 1` with
`N < 2 ^ 32`, `pendingTopChallenge.ChooseSegment` calls `chooseSegment` with the
index unchanged and with exactly `N` segment hashes whose `i`-th element is
`PendingTopChallengeDataHash(chainHashes[i], chainHashes[i+1], s_i)`, where `s_i`
is the value of `CalculateBisectionStepCount(i, N, chainLength)`, unchanged by
the widening; no index outside `chainHashes` is read (the call does not
panic). -/
theorem pendingTop_ChooseSegment_hashes (S : Structures) (assertionToChallenge : Nat)
    (chainHashes : List Hash) (chainLength n : Nat) (hlen : chainHashes.length = n + 1)
    (hn : n < 2 ^ 32) :
    ∃ hashes,
      pendingTopChallenge.ChooseSegment S assertionToChallenge chainHashes chainLength
        = some ⟨assertionToChallenge, hashes⟩ ∧
      hashes.length = n ∧
      ∀ i, i < n → ∃ lower upper,
        chainHashes[i]? = some lower ∧ chainHashes[i + 1]? = some upper ∧
        hashes[i]? = some (S.PendingTopChallengeDataHash lower upper
          (S.CalculateBisectionStepCount i n chainLength)) := by
  have hcount : uint32OfInt ((chainHashes.length : Int) - 1) = n := by
    rw [hlen]
    exact uint32OfInt_pred hn
  have hpass : ∀ i, i < n → ∃ lower upper,
      chainHashes[i]? = some lower ∧ chainHashes[uint32 (i + 1)]? = some upper ∧
      chainHashes[i + 1]? = some upper := by
    intro i hi
    have h1 : uint32 (i + 1) = i + 1 := uint32_of_lt (by omega)
    rw [h1]
    exact ⟨_, _, List.getElem?_eq_getElem (by omega), List.getElem?_eq_getElem (by omega),
      List.getElem?_eq_getElem (by omega)⟩
  obtain ⟨hashes, hloop, hlength, hget⟩ := appendLoop_some
    (fun i =>
      match chainHashes[i]?, chainHashes[uint32 (i + 1)]? with
      | some lower, some upper =>
        some (S.PendingTopChallengeDataHash lower upper
          (uint64 (S.CalculateBisectionStepCount i n chainLength)))
      | _, _ => none) n
    (fun i hi => by
      obtain ⟨lo, up, hlo, hup, _⟩ := hpass i hi
      simp only [hlo, hup]
      exact ⟨_, rfl⟩)
  refine ⟨hashes, ?_, hlength, ?_⟩
  · simp only [pendingTopChallenge.ChooseSegment, hcount, hloop]
  · intro i hi
    obtain ⟨lo, up, hlo, hup, hup2⟩ := hpass i hi
    refine ⟨lo, up, hlo, hup2, ?_⟩
    rw [hget i hi]
    simp only [hlo, hup, uint64_of_lt (S.stepCount_lt i n chainLength)]

/-- The amended C9 at three chain hashes. -/
theorem pendingTop_ChooseSegment_hashes_witness :
    ∃ hashes,
      pendingTopChallenge.ChooseSegment sampleStructures 1 [40, 41, 42] 7
        = some ⟨1, hashes⟩ ∧
      hashes.length = 2 ∧
      ∀ i, i < 2 → ∃ lower upper,
        [40, 41, 42][i]? = some lower ∧ [40, 41, 42][i + 1]? = some upper ∧
        hashes[i]? = some (sampleStructures.PendingTopChallengeDataHash lower upper
          (sampleStructures.CalculateBisectionStepCount i 2 7)) :=
  pendingTop_ChooseSegment_hashes sampleStructures 1 [40, 41, 42] 7 2 rfl (by norm_num)

/-- C10 at a failing run, for both challenges: the `select` takes the case
`<-ctx.Done()`, and the loop goes on.  On its next passes it receives a log,
hands it to `processEvents` (which sends a notification) and forwards an error
from `logErrChan`; only then does the goroutine return. -/
theorem eventLoop_goes_on_after_cancellation :
    sampleExecutionChallenge.eventLoop
        [.ctxDone, .logChan ⟨[2], 50, 60⟩ true, .logErrChan "boom"]
      = { processed := [⟨[2], 50, 60⟩]
          headerLookups := [50]
          sent := [⟨50, 12, 77, some .OneStepProofEvent, 60⟩]
          errChan := ["boom"]
          state := .exited } ∧
    samplePendingTopChallenge.eventLoop
        [.ctxDone, .logChan ⟨[4], 50, 60⟩ true, .logErrChan "boom"]
      = { processed := [⟨[4], 50, 60⟩]
          headerLookups := [50]
          sent := [⟨50, 12, 78, some .OneStepProofEvent, 60⟩]
          errChan := ["boom"]
          state := .exited } ∧
    sampleExecutionChallenge.eventLoop [.ctxDone] = ⟨[], [], [], [], .running⟩ := by
  decide

/-! ### Bisection arrays -/

/-- The loop of `BisectAssertion` appends, to each array, the matching field of
every assertion in order. -/
theorem foldl_push (assertions : List ExecutionAssertionStub) (init : BisectionArrays) :
    assertions.foldl BisectionArrays.push init
      = { machineHashes := init.machineHashes ++ assertions.map (·.AfterHash)
          didInboxInsns := init.didInboxInsns ++ assertions.map (·.DidInboxInsn)
          messageAccs := init.messageAccs ++ assertions.map (·.LastMessageHash)
          logAccs := init.logAccs ++ assertions.map (·.LastLogHash)
          gasses := init.gasses ++ assertions.map (·.NumGas) } := by
  induction assertions generalizing init with
  | nil => simp
  | cons a l ih => simp [ih, BisectionArrays.push]

/-- A stub is determined by its seven fields. -/
theorem stub_eq_of_fields (x y : ExecutionAssertionStub) (h1 : x.AfterHash = y.AfterHash)
    (h2 : x.DidInboxInsn = y.DidInboxInsn) (h3 : x.NumGas = y.NumGas)
    (h4 : x.FirstMessageHash = y.FirstMessageHash)
    (h5 : x.LastMessageHash = y.LastMessageHash) (h6 : x.FirstLogHash = y.FirstLogHash)
    (h7 : x.LastLogHash = y.LastLogHash) : x = y := by
  cases x
  cases y
  simp_all

/-- C11: round trip between the arrays of `BisectAssertion` and
`translateBisectionEvent`.  For every non-empty list of `N` assertion stubs
that is chained (each stub starts at the message and log accumulators at which
the one before it ends), the arrays that `BisectAssertion` builds have lengths
`N + 1` (machine hashes, message and log accumulators) and `N` (inbox flags,
gas values), the first machine hash is `precondition.BeforeHash`, and
`translateBisectionEvent` applied to an event carrying these arrays returns the
original list of stubs. -/
theorem BisectAssertion_translate_roundtrip (precondition : Precondition)
    (assertions : List ExecutionAssertionStub) (totalSteps deadlineTicks : Nat)
    (hne : assertions ≠ [])
    (hchain : ∀ i a b, assertions[i]? = some a → assertions[i + 1]? = some b →
      b.FirstMessageHash = a.LastMessageHash ∧ b.FirstLogHash = a.LastLogHash) :
    ∃ arrays, executionChallenge.BisectAssertion precondition assertions = some arrays ∧
      arrays.machineHashes.length = assertions.length + 1 ∧
      arrays.messageAccs.length = assertions.length + 1 ∧
      arrays.logAccs.length = assertions.length + 1 ∧
      arrays.didInboxInsns.length = assertions.length ∧
      arrays.gasses.length = assertions.length ∧
      arrays.machineHashes[0]? = some precondition.BeforeHash ∧
      translateBisectionEvent (arrays.toEvent totalSteps deadlineTicks) = some assertions := by
  obtain ⟨first, tl, rfl⟩ := List.exists_cons_of_ne_nil hne
  refine ⟨{ machineHashes := [precondition.BeforeHash] ++ (first :: tl).map (·.AfterHash)
            didInboxInsns := [] ++ (first :: tl).map (·.DidInboxInsn)
            messageAccs := [first.FirstMessageHash] ++ (first :: tl).map (·.LastMessageHash)
            logAccs := [first.FirstLogHash] ++ (first :: tl).map (·.LastLogHash)
            gasses := [] ++ (first :: tl).map (·.NumGas) },
    by simp only [executionChallenge.BisectAssertion, List.getElem?_cons_zero, foldl_push],
    by simp, by simp, by simp, by simp, by simp, by simp, ?_⟩
  obtain ⟨stubs, hstubs, hlen, hget⟩ := translate_of_long_enough
    (BisectionArrays.toEvent
      { machineHashes := [precondition.BeforeHash] ++ (first :: tl).map (·.AfterHash)
        didInboxInsns := [] ++ (first :: tl).map (·.DidInboxInsn)
        messageAccs := [first.FirstMessageHash] ++ (first :: tl).map (·.LastMessageHash)
        logAccs := [first.FirstLogHash] ++ (first :: tl).map (·.LastLogHash)
        gasses := [] ++ (first :: tl).map (·.NumGas) } totalSteps deadlineTicks)
    (first :: tl).length (by simp [BisectionArrays.toEvent])
    (by simp [BisectionArrays.toEvent]) (by simp [BisectionArrays.toEvent])
    (Or.inr (by simp [BisectionArrays.toEvent])) (Or.inr (by simp [BisectionArrays.toEvent]))
  rw [hstubs]
  congr 1
  apply List.ext_getElem?
  intro i
  by_cases hi : i < (first :: tl).length
  · obtain ⟨stub, hs, h1, h2, h3, h4, h5, h6, h7⟩ := hget i hi
    have ha : (first :: tl)[i]? = some ((first :: tl)[i]) := List.getElem?_eq_getElem hi
    rw [hs, ha]
    congr 1
    simp only [BisectionArrays.toEvent, List.singleton_append, List.nil_append,
      List.getElem?_cons_succ, List.getElem?_map, ha, Option.map_some',
      Option.some.injEq] at h1 h2 h3 h5 h7
    have h46 : stub.FirstMessageHash = ((first :: tl)[i]).FirstMessageHash ∧
        stub.FirstLogHash = ((first :: tl)[i]).FirstLogHash := by
      cases i with
      | zero =>
        simp only [BisectionArrays.toEvent, List.singleton_append, List.getElem?_cons_zero,
          Option.some.injEq] at h4 h6
        simp [← h4, ← h6]
      | succ j =>
        have hj : (first :: tl)[j]? = some ((first :: tl)[j]) :=
          List.getElem?_eq_getElem (by omega)
        have hc := hchain j _ _ hj ha
        simp only [BisectionArrays.toEvent, List.singleton_append, List.getElem?_cons_succ,
          List.getElem?_map, hj, Option.map_some', Option.some.injEq] at h4 h6
        exact ⟨by rw [← h4, hc.1], by rw [← h6, hc.2]⟩
    exact stub_eq_of_fields _ _ h1.symm h2.symm h3.symm h46.1 h5.symm h46.2 h7.symm
  · rw [List.getElem?_eq_none (by omega), List.getElem?_eq_none (by omega)]

/-- C11 at a bisection into two chained stubs. -/
theorem BisectAssertion_translate_roundtrip_witness :
    ∃ arrays,
      executionChallenge.BisectAssertion ⟨10, 2, (0, 9)⟩
          [⟨11, true, 5, 20, 21, 30, 31⟩, ⟨12, false, 6, 21, 22, 31, 32⟩] = some arrays ∧
      arrays.machineHashes.length
        = [(⟨11, true, 5, 20, 21, 30, 31⟩ : ExecutionAssertionStub),
            ⟨12, false, 6, 21, 22, 31, 32⟩].length + 1 ∧
      arrays.messageAccs.length
        = [(⟨11, true, 5, 20, 21, 30, 31⟩ : ExecutionAssertionStub),
            ⟨12, false, 6, 21, 22, 31, 32⟩].length + 1 ∧
      arrays.logAccs.length
        = [(⟨11, true, 5, 20, 21, 30, 31⟩ : ExecutionAssertionStub),
            ⟨12, false, 6, 21, 22, 31, 32⟩].length + 1 ∧
      arrays.didInboxInsns.length
        = [(⟨11, true, 5, 20, 21, 30, 31⟩ : ExecutionAssertionStub),
            ⟨12, false, 6, 21, 22, 31, 32⟩].length ∧
      arrays.gasses.length
        = [(⟨11, true, 5, 20, 21, 30, 31⟩ : ExecutionAssertionStub),
            ⟨12, false, 6, 21, 22, 31, 32⟩].length ∧
      arrays.machineHashes[0]? = some (⟨10, 2, (0, 9)⟩ : Precondition).BeforeHash ∧
      translateBisectionEvent (arrays.toEvent 100 9)
        = some [⟨11, true, 5, 20, 21, 30, 31⟩, ⟨12, false, 6, 21, 22, 31, 32⟩] :=
  BisectAssertion_translate_roundtrip ⟨10, 2, (0, 9)⟩
    [⟨11, true, 5, 20, 21, 30, 31⟩, ⟨12, false, 6, 21, 22, 31, 32⟩] 100 9 (by decide)
    (by
      intro i a b ha hb
      match i, ha, hb with
      | 0, ha, hb =>
        simp only [List.getElem?_cons_zero, List.getElem?_cons_succ, Option.some.injEq] at ha hb
        subst ha hb
        exact ⟨rfl, rfl⟩
      | 1, _, hb => simp at hb
      | n + 2, ha, _ => simp at ha)

/-! ### Nil events -/

/-- The function literal of `pendingTopChallenge.processEvents` panics exactly
on a log without topics, and it never returns a nil event with a nil error. -/
theorem pendingTop_parseEvent_cases (p : pendingTopChallenge) (log : Log) :
    (log.Topics = [] ∧ p.parseEvent log = none) ∨
    (log.Topics ≠ [] ∧ ∃ event err, p.parseEvent log = some (event, some err)) ∨
    (log.Topics ≠ [] ∧ ∃ event, p.parseEvent log = some (some event, none)) := by
  obtain ⟨address, id1, id2, parseBisected, parseOneStep, parseGeneric, convert, header⟩ := p
  unfold pendingTopChallenge.parseEvent
  rcases hT : log.Topics with _ | ⟨topic0, rest⟩
  · exact Or.inl ⟨rfl, rfl⟩
  · simp only [ne_eq, reduceCtorEq, not_false_eq_true, true_and, false_and, false_or]
    by_cases h1 : topic0 = id1
    · rw [if_pos h1]
      rcases parseBisected log with err | eventVal
      · exact Or.inl ⟨_, _, rfl⟩
      · exact Or.inr ⟨_, rfl⟩
    · rw [if_neg h1]
      by_cases h2 : topic0 = id2
      · rw [if_pos h2]
        rcases parseOneStep log with _ | err
        · exact Or.inr ⟨_, rfl⟩
        · exact Or.inl ⟨_, _, rfl⟩
      · rw [if_neg h2]
        rcases hb : parseGeneric log with ⟨event, err⟩
        cases err with
        | some e => exact Or.inl ⟨event, e, by simp⟩
        | none =>
          cases event with
          | some ev => exact Or.inr ⟨ev, by simp⟩
          | none => exact Or.inl ⟨none, "unknown arbitrum event type", by simp⟩

/-- The function literal of `executionChallenge.processEvents` never returns a
nil event with a nil error. -/
theorem execution_parseEvent_not_nil (c : executionChallenge) (log : Log) :
    c.parseEvent log ≠ some (none, none) := by
  obtain ⟨address, id1, id2, parseBisected, parseOneStep, parseGeneric, header⟩ := c
  unfold executionChallenge.parseEvent
  rcases log.Topics with _ | ⟨topic0, rest⟩
  · simp
  · simp only
    by_cases h1 : topic0 = id1
    · rw [if_pos h1]
      rcases parseBisected log with err | bisectChal
      · simp
      · simp only
        rcases translateBisectionEvent bisectChal with _ | assertions <;> simp
    · rw [if_neg h1]
      by_cases h2 : topic0 = id2
      · rw [if_pos h2]
        rcases parseOneStep log with _ | err <;> simp
      · rw [if_neg h2]
        rcases hb : parseGeneric log with ⟨event, err⟩
        cases err <;> cases event <;> simp

/-- C12, as stated, fails on a log without topics: `log.Topics[0]` panics, so
`processEvents` neither returns an error nor sends a notification. -/
theorem pendingTop_processEvents_panics_without_topics :
    samplePendingTopChallenge.processEvents ⟨[], 50, 60⟩ = ⟨[], [], .panicked⟩ := by
  decide

/-- C12 (amended): on a log without topics `pendingTopChallenge.processEvents`
panics without a header lookup and without sending anything; on every other
log it either returns an error without sending anything, or sends exactly one
Notification whose Event is not nil and whose TxHash is `log.TxHash`, and
returns nil.  It never sends a Notification with a nil Event: the function
literals of both handlers never return a nil event with a nil error, so the
`event == nil` return of `executionChallenge.processEvents` is never taken, and
the pending-top handler with that test added behaves as the one without it. -/
theorem pendingTop_processEvents_never_sends_nil (p : pendingTopChallenge)
    (c : executionChallenge) (log : Log) :
    ((log.Topics = [] ∧ p.processEvents log = ⟨[], [], .panicked⟩) ∨
      (log.Topics ≠ [] ∧ ∃ err lookups,
        p.processEvents log = ⟨lookups, [], .returned (some err)⟩) ∨
      (log.Topics ≠ [] ∧ ∃ (event : Event) (header : Header),
        p.processEvents log
          = ⟨[log.BlockHash],
              [{ BlockHeader := header.Hash
                 BlockHeight := header.Number
                 VMID := p.address
                 Event := some event
                 TxHash := log.TxHash }],
              .returned none⟩)) ∧
    (∀ n ∈ (p.processEvents log).sent, n.Event ≠ none) ∧
    c.parseEvent log ≠ some (none, none) ∧
    p.parseEvent log ≠ some (none, none) ∧
    p.processEventsWithNilTest log = p.processEvents log := by
  have hcases := pendingTop_parseEvent_cases p log
  have key : ((log.Topics = [] ∧ p.processEvents log = ⟨[], [], .panicked⟩) ∨
      (log.Topics ≠ [] ∧ ∃ err lookups,
        p.processEvents log = ⟨lookups, [], .returned (some err)⟩) ∨
      (log.Topics ≠ [] ∧ ∃ (event : Event) (header : Header),
        p.processEvents log
          = ⟨[log.BlockHash],
              [{ BlockHeader := header.Hash
                 BlockHeight := header.Number
                 VMID := p.address
                 Event := some event
                 TxHash := log.TxHash }],
              .returned none⟩)) ∧
      p.parseEvent log ≠ some (none, none) ∧
      p.processEventsWithNilTest log = p.processEvents log := by
    unfold pendingTopChallenge.processEvents pendingTopChallenge.processEventsWithNilTest
    rcases hcases with ⟨hT, hp⟩ | ⟨hT, event, err, hp⟩ | ⟨hT, event, hp⟩
    · rw [hp]
      exact ⟨Or.inl ⟨hT, rfl⟩, by simp, rfl⟩
    · rw [hp]
      cases event <;> exact ⟨Or.inr (Or.inl ⟨hT, err, [], rfl⟩), by simp, rfl⟩
    · rw [hp]
      refine ⟨?_, by simp, rfl⟩
      simp only
      rcases p.HeaderByHash log.BlockHash with err | header
      · exact Or.inr (Or.inl ⟨hT, err, [log.BlockHash], rfl⟩)
      · exact Or.inr (Or.inr ⟨hT, event, header, rfl⟩)
  refine ⟨key.1, ?_, execution_parseEvent_not_nil c log, key.2.1, key.2.2⟩
  rcases key.1 with ⟨_, h⟩ | ⟨_, err, lookups, h⟩ | ⟨_, event, header, h⟩
  · simp [h]
  · simp [h]
  · simp [h]

end Ethbridge
